import Mathlib

set_option autoImplicit false

/-!
Verification development for the stixmarx marking-overlay engine.

The development shallowly embeds the data model and the operations of the
library: the entity tree walked by stixmarx.navigator, the per-object marking
sets managed by stixmarx.api, the MarkingContainer store (stixmarx.container),
the XPath synthesis of stixmarx.serializer, and the identity-aware node keying
of stixmarx.markingmap.

Modelling conventions, fixed once here:
* Python object identity is modelled by a numeric id carried by every tree
  node; two tree nodes of a scenario never share an id.  Fresh objects
  created by stixmarx.api.types.cast are allocated from a counter.
* A MarkingSpecification is modelled by its payload (an opaque Nat) together
  with its controlled_structure.  Python membership tests (x in collection)
  on markings are modelled by structural equality.
* The external entity-tree supplier (mixbox / python-stix) is modelled per
  the documented interface: an entity has named typed fields whose values are
  a single child node or an ordered list of child nodes; the intermediate
  EntityList containers of python-stix are compressed away.  The external
  field-mapping tables (stixmarx.fields data, consulted through
  attrmap.xmlfield) are modelled as per-field selector data on the tree.
* Exceptions are modelled by returning the partial post-state together with
  an error value, since Python exceptions leave earlier in-place mutations
  visible to the caller.
-/

namespace StixMarx

/-- A data marking record (a python-stix MarkingSpecification): an opaque
payload plus the optional controlled structure (its XPath target).  A record
buffered in the store has no controlled structure; MarkingSerializer assigns
one to a deep copy.  The source tests emptiness by falsiness (utils
check_empty_marking), so an absent and an empty-string controlled structure
are both modelled as none. -/
structure Marking where
  payload : Nat
  controlled_structure : Option String
deriving DecidableEq, Repr

/-- Errors raised by the container and serializer (stixmarx.errors). -/
inductive Err where
  | unmarkableError
  | duplicateMarkingError
  | markingNotFoundError
  | markingRemovalError
  | markingPathNotEmpty
  | serializerMappingError
  | serializerFieldNotFoundError
deriving DecidableEq, Repr

mutual
/-- A node of the entity tree: an entity (mixbox Entity) carrying typed
fields, or a scalar leaf value.  An entity records its namespace
prefix (nsmap.preferred_prefix_for_namespace), whether it has a handling
attribute (utils.contains_handling), whether it is the STIXPackage document
root (utils.is_package) and whether it is a stix Report
(utils.is_stix_report).  A scalar leaf is wrapped when it is a
stixmarx.api.types wrapper value carrying its own marking set in place, and
raw otherwise (an immutable builtin: attaching a marking casts it to a fresh
wrapper copy). -/
inductive Node where
  | ent (eid : Nat) (pfx : String) (hasHandling : Bool) (isPkg : Bool)
        (isReport : Bool) (fields : List Fld) : Node
  | scalar (sid : Nat) (sval : String) (wrapped : Bool) : Node

/-- A typed field of an entity: the python attribute name, the wire selector
returned for it by attrmap.xmlfield (an element localname, an attribute
selector starting with @, or the text selector; none when the mapping table
has no entry), and the value: a single child node or an ordered list of
child nodes. -/
inductive Fld where
  | one (fname : String) (sel : Option String) (value : Node) : Fld
  | many (fname : String) (sel : Option String) (values : List Node) : Fld
end

/-- Object identity of a node. -/
def Node.idOf : Node → Nat
  | .ent i _ _ _ _ _ => i
  | .scalar i _ _ => i

/-- Namespace prefix of an entity (empty for scalar leaves). -/
def Node.pfxOf : Node → String
  | .ent _ p _ _ _ _ => p
  | .scalar _ _ _ => ""

/-- Truth of utils.contains_handling for a node. -/
def Node.hasHandlingB : Node → Bool
  | .ent _ _ h _ _ _ => h
  | .scalar _ _ _ => false

/-- Truth of utils.is_package for a node. -/
def Node.isPkgB : Node → Bool
  | .ent _ _ _ p _ _ => p
  | .scalar _ _ _ => false

/-- Truth of utils.is_stix_report for a node. -/
def Node.isReportB : Node → Bool
  | .ent _ _ _ _ r _ => r
  | .scalar _ _ _ => false

/-- Python name of a field. -/
def Fld.fnameOf : Fld → String
  | .one n _ _ => n
  | .many n _ _ => n

/-- Wire selector of a field per the attrmap.xmlfield mapping table. -/
def Fld.selOf : Fld → Option String
  | .one _ s _ => s
  | .many _ s _ => s

/-- Python equality (the == used by list membership and list.index in the
source) between tree nodes: entities compare by object identity (mixbox
Entity does not override __eq__), while scalar values compare by their
underlying value (the stixmarx.api.types wrappers subclass the builtin
types, so a wrapped value equals the equal raw value). -/
def nodeEqPy : Node → Node → Bool
  | .ent i _ _ _ _ _, .ent j _ _ _ _ _ => i == j
  | .scalar _ v _, .scalar _ w _ => v == w
  | _, _ => false

/-- True when a node carries its marking set in place: entities and already
wrapped scalar values.  A raw builtin scalar is markable only through a
fresh wrapper copy. -/
def in_place_markable : Node → Bool
  | .ent _ _ _ _ _ _ => true
  | .scalar _ _ w => w

mutual
/-- Depth-first traversal of the strict descendants of a node, in the order
produced by navigator.iterwalk: every field value is yielded and then
recursively expanded; items of list-valued fields are yielded one by one. -/
def iterwalk : Node → List Node
  | .ent _ _ _ _ _ fs => iterwalkFlds fs
  | .scalar _ _ _ => []

/-- Traversal over a list of fields, in field order. -/
def iterwalkFlds : List Fld → List Node
  | [] => []
  | f :: fs => iterwalkFld f ++ iterwalkFlds fs

/-- Traversal of a single field: a single value is yielded then walked; a
list-valued field has each item yielded then walked. -/
def iterwalkFld : Fld → List Node
  | .one _ _ n => n :: iterwalk n
  | .many _ _ ns => iterwalkList ns

/-- Traversal over the items of a list-valued field. -/
def iterwalkList : List Node → List Node
  | [] => []
  | n :: ns => (n :: iterwalk n) ++ iterwalkList ns
end

/-- One triple yielded by navigator.iterpath: the ancestor chain (root first,
ending with the entity owning the field), the python field name, and the
field value. -/
structure PathTriple where
  ancestors : List Node
  fname : String
  value : Node

mutual
/-- Depth-first traversal per navigator.iterpath: yields, for every field
value reachable from the node, the ancestor chain, the field name and the
value.  The current entity is appended to the chain before its fields are
visited, as the source appends obj to path on entry. -/
def iterpath : List Node → Node → List PathTriple
  | anc, q@(.ent _ _ _ _ _ fs) => iterpathFlds (anc ++ [q]) fs
  | _, .scalar _ _ _ => []
termination_by structural _ n => n

/-- Traversal over a list of fields for iterpath. -/
def iterpathFlds : List Node → List Fld → List PathTriple
  | _, [] => []
  | anc, f :: fs => iterpathFld anc f ++ iterpathFlds anc fs
termination_by structural _ fs => fs

/-- Traversal of a single field for iterpath. -/
def iterpathFld : List Node → Fld → List PathTriple
  | anc, .one nm _ v => ⟨anc, nm, v⟩ :: iterpath anc v
  | anc, .many nm _ vs => iterpathItems anc nm vs
termination_by structural _ f => f

/-- Traversal over the items of a list-valued field for iterpath: every item
is yielded with the same field name, then walked. -/
def iterpathItems : List Node → String → List Node → List PathTriple
  | _, _, [] => []
  | anc, nm, v :: vs => (⟨anc, nm, v⟩ :: iterpath anc v) ++ iterpathItems anc nm vs
termination_by structural _ _ ns => ns
end

/-- State of a MarkingContainer together with the marking state attached to
the wrapped package tree: the per-object marking sets (the __datamarkings__
side channel, keyed by object identity), the allocator for wrapper copies
made by stixmarx.api.types.cast, the three buffered marking scopes, and the
contents of the handling containers that the serializer writes into (per
entity id, plus the package-level STIX header handling). -/
structure Container where
  package : Node
  attached : Nat → List Marking
  nextId : Nat
  field_markings : List (Node × List (Marking × Bool))
  global_markings : List Marking
  null_markings : List Marking
  handlingMap : Nat → List Marking
  headerHandling : List Marking

/-- Insertion into a python set modelled as a duplicate-free list. -/
def setInsert (m : Marking) (l : List Marking) : List Marking :=
  if m ∈ l then l else l ++ [m]

/-- Pointwise update of an identity-indexed map. -/
def updateFun (f : Nat → List Marking) (k : Nat) (v : List Marking) : Nat → List Marking :=
  fun j => if j = k then v else f j

/-- Fresh MarkingContainer wrapping a package, as built by stixmarx.new():
empty scopes, no attached markings, no handling content.  The wrapper
allocator starts above every id used by the tree of the scenario. -/
def initContainer (pkg : Node) (alloc : Nat) : Container :=
  { package := pkg
  , attached := fun _ => []
  , nextId := alloc
  , field_markings := []
  , global_markings := []
  , null_markings := []
  , handlingMap := fun _ => []
  , headerHandling := [] }

/-- Markings attached directly to an object (stixmarx.api.get_markings): the
object's own __datamarkings__ set, empty when absent. -/
def api_get_markings (c : Container) (n : Node) : List Marking :=
  c.attached n.idOf

/-- Attach a marking to an object per stixmarx.api.add_marking: a raw builtin
scalar is first cast to a fresh wrapper object (a new identity) that then
carries the marking; in-place markable objects get the marking added to
their own set.  Returns the object actually marked, which for raw scalars is
the fresh wrapper, not the input. -/
def api_add_marking (c : Container) (n : Node) (m : Marking) : Container × Node :=
  match n with
  | .scalar _ v false =>
      ({ c with attached := updateFun c.attached c.nextId [m]
              , nextId := c.nextId + 1 }
      , Node.scalar c.nextId v true)
  | _ =>
      ({ c with attached := updateFun c.attached n.idOf (setInsert m (c.attached n.idOf)) }
      , n)

/-- Detach a marking from an object's own set (stixmarx.api.remove_marking);
a no-op when the object is not marked. -/
def api_remove_marking (c : Container) (n : Node) (m : Marking) : Container :=
  { c with attached := updateFun c.attached n.idOf ((c.attached n.idOf).erase m) }

/-- MarkingContainer._add_descendants: walk the descendants and attach the
marking to each via the api.  The source rebinds the loop variable to the
api return value, so the fresh wrapper created for a raw scalar descendant
is dropped and never stored back into the tree. -/
def add_descendants (c : Container) (n : Node) (m : Marking) : Container :=
  (iterwalk n).foldl (fun acc d => (api_add_marking acc d m).1) c

/-- MarkingContainer._remove_descendants: detach the marking from every
descendant that carries it. -/
def remove_descendants (c : Container) (n : Node) (m : Marking) : Container :=
  (iterwalk n).foldl
    (fun acc d => if m ∈ api_get_markings acc d then api_remove_marking acc d m else acc) c

/-- MarkingContainer._clear_descendants: empty the marking set of every
descendant (api.clear_markings). -/
def clear_descendants (c : Container) (n : Node) : Container :=
  (iterwalk n).foldl (fun acc d => { acc with attached := updateFun acc.attached d.idOf [] }) c

/-- MarkingContainer._get_descendants: the united markings of all
descendants. -/
def get_descendant_markings (c : Container) (n : Node) : List Marking :=
  ((iterwalk n).map (api_get_markings c)).flatten

/-- MarkingContainer.get_markings: the union of the buffered global markings,
the object's own attached markings, the descendants' markings when
requested, and the buffered null markings when requested.  The source
returns list(set(...)) of this chain; the model keeps the chain itself,
which has the same members. -/
def get_markings (c : Container) (n : Node) (descendants includeNull : Bool) : List Marking :=
  c.global_markings ++ api_get_markings c n
    ++ (if descendants then get_descendant_markings c n else [])
    ++ (if includeNull then c.null_markings else [])

/-- MarkingContainer.is_marked.  Every Node value of the model is markable
(python raw sequences, the unmarkable inputs, occur only as field values,
never as Node arguments), so the UnmarkableError branch of the source does
not arise here. -/
def is_marked (c : Container) (n : Node) (m? : Option Marking) (descendants : Bool) : Bool :=
  let ms := get_markings c n descendants false
  match m? with
  | some m => decide (m ∈ ms)
  | none => decide (ms ≠ [])

/-- Lookup of a field-markings entry by object identity (python dict keys
hash by object identity here). -/
def lookupField (l : List (Node × List (Marking × Bool))) (k : Nat) :
    Option (List (Marking × Bool)) :=
  match l.find? (fun p => p.1.idOf == k) with
  | some p => some p.2
  | none => none

/-- Replace the entry of a key in the field-markings store, appending a new
entry at the end when the key is absent (insertion order of a python
defaultdict). -/
def setFieldEntry : List (Node × List (Marking × Bool)) → Node → List (Marking × Bool) →
    List (Node × List (Marking × Bool))
  | [], k, v => [(k, v)]
  | (n, l) :: rest, k, v =>
      if n.idOf == k.idOf then (n, v) :: rest else (n, l) :: setFieldEntry rest k v

/-- MarkingContainer.add_global: append to the global collection unless an
equal marking is already buffered.  The marking must be a
MarkingSpecification (enforced here by the Marking type) with an empty
controlled structure. -/
def add_global (c : Container) (m : Marking) : Container × Except Err Unit :=
  if m.controlled_structure ≠ none then (c, .error .markingPathNotEmpty)
  else if m ∈ c.global_markings then (c, .error .duplicateMarkingError)
  else ({ c with global_markings := c.global_markings ++ [m] }, .ok ())

/-- MarkingContainer.add_marking.  The steps mirror the source order:
check the marking shape (by type) and that its controlled structure is
empty; handle the null case (markable is none); reject when the target
already effectively carries the marking (_assert_unique_marking, which
consults get_markings and hence own plus global markings); attach through
the api, which casts raw scalars to fresh wrappers; only then check for the
document root, so a failed root call has already attached the marking; for
non-root targets, eagerly attach to every descendant when requested and
record the pair in field_markings keyed by the marked object.  Returns the
post-state (partial on error, as the source mutates in place before
raising) and the outcome: the identity of the marked object, none for a
recorded null marking. -/
def add_marking (c : Container) (markable : Option Node) (m : Marking)
    (descendants : Bool) : Container × Except Err (Option Nat) :=
  if m.controlled_structure ≠ none then (c, .error .markingPathNotEmpty)
  else
    match markable with
    | none =>
        if m ∈ c.null_markings then (c, .error .duplicateMarkingError)
        else ({ c with null_markings := c.null_markings ++ [m] }, .ok none)
    | some n =>
        if m ∈ get_markings c n false false then (c, .error .duplicateMarkingError)
        else
          let step := api_add_marking c n m
          let c1 := step.1
          let marked := step.2
          if !n.isPkgB then
            let lst := (lookupField c1.field_markings marked.idOf).getD []
            if (m, descendants) ∈ lst then (c1, .error .duplicateMarkingError)
            else
              let c2 := if descendants then add_descendants c1 n m else c1
              ({ c2 with field_markings := setFieldEntry c2.field_markings marked (lst ++ [(m, descendants)]) }
              , .ok (some marked.idOf))
          else (c1, .error .unmarkableError)

/-- MarkingContainer._remove_marking_specification: find the first node of
the document, header first then the walked descendants, whose embedded
handling contains the marking, and remove it there; error when no such node
exists. -/
def remove_marking_specification (c : Container) (m : Marking) :
    Container × Except Err Unit :=
  if m ∈ c.headerHandling then
    ({ c with headerHandling := c.headerHandling.erase m }, .ok ())
  else
    match (iterwalk c.package).find?
        (fun d => d.hasHandlingB && decide (m ∈ c.handlingMap d.idOf)) with
    | some d =>
        ({ c with handlingMap := fun j => if j = d.idOf then (c.handlingMap j).erase m else c.handlingMap j }
        , .ok ())
    | none => (c, .error .markingNotFoundError)

/-- MarkingContainer.remove_marking.  Mirrors the source: the null case
removes from the buffered null collection or falls back to the embedded
document; for a store-tracked object the exact (marking, descendants) pair
is removed, the marking is detached and, when requested, detached from the
descendants; for an object that merely carries the marking (a parsed-in or
inherited marking), the document root is rejected, then the tree is scanned
depth-first and removal succeeds only if the first carrier found is the
object itself, otherwise the marking is inherited from an ancestor and a
MarkingRemovalError is raised. -/
def remove_marking (c : Container) (markable : Option Node) (m : Marking)
    (descendants : Bool) : Container × Except Err Unit :=
  match markable with
  | none =>
      if m ∈ c.null_markings then
        ({ c with null_markings := c.null_markings.erase m }, .ok ())
      else remove_marking_specification c m
  | some n =>
      match lookupField c.field_markings n.idOf with
      | some lst =>
          if (m, descendants) ∈ lst then
            let c1 := { c with field_markings := setFieldEntry c.field_markings n (lst.erase (m, descendants)) }
            let c2 :=
              if m ∈ api_get_markings c1 n then
                let c2a := api_remove_marking c1 n m
                if descendants then remove_descendants c2a n m else c2a
              else c1
            (c2, .ok ())
          else (c, .error .markingNotFoundError)
      | none =>
          if m ∈ api_get_markings c n then
            if n.isPkgB then (c, .error .markingRemovalError)
            else
              match (iterwalk c.package).find? (fun d => decide (m ∈ api_get_markings c d)) with
              | some d =>
                  if d.idOf = n.idOf then
                    let c1 := api_remove_marking c n m
                    let c2 := if descendants then remove_descendants c1 n m else c1
                    remove_marking_specification c2 m
                  else (c, .error .markingRemovalError)
              | none => (c, .error .markingNotFoundError)
          else (c, .error .markingNotFoundError)

/-- MarkingContainer.clear_markings: empty the object's own attached set and,
when requested, the sets of all its descendants.  The buffered store scopes
are not touched.  Every Node of the model is markable, so the
UnmarkableError branch of the source does not arise here. -/
def clear_markings (c : Container) (n : Node) (descendants : Bool) : Container :=
  let c1 := { c with attached := updateFun c.attached n.idOf [] }
  if descendants then clear_descendants c1 n else c1

/-! Serializer: the XPath constants of stixmarx.xml, the selector predicates
of stixmarx.attrmap and utils.is_node, and the path synthesis and flush
pipeline of stixmarx.serializer.MarkingSerializer. -/

/-- Global selector (xml.XPATH_GLOBAL_ALL_FIELDS). -/
def XPATH_GLOBAL_ALL_FIELDS : String := "//node() | //@*"

/-- Start of a path relative to a marking inside a top-level object
(xml.XPATH_TLO_RELATIVE_START). -/
def XPATH_TLO_RELATIVE_START : String := "../../.."

/-- Start of a path relative to a marking inside the STIX header
(xml.XPATH_HEADER_RELATIVE_START). -/
def XPATH_HEADER_RELATIVE_START : String := "../../../.."

/-- Self axis (xml.XPATH_AXIS_SELF_NODE). -/
def XPATH_AXIS_SELF_NODE : String := "self::node()"

/-- Self-and-descendants axis (xml.XPATH_AXIS_DESCENDANT_OR_SELF_NODE). -/
def XPATH_AXIS_DESCENDANT_OR_SELF_NODE : String := "descendant-or-self::node()"

/-- Child-axis separator (xml.XPATH_SELECT_OPERATOR). -/
def XPATH_SELECT_OPERATOR : String := "/"

/-- All-attributes wildcard (xml.XPATH_WILDCARD_ALL_ATTRS). -/
def XPATH_WILDCARD_ALL_ATTRS : String := "@*"

/-- Whether one character list is a prefix of another. -/
def charsHasPfx : List Char → List Char → Bool
  | _, [] => true
  | [], _ :: _ => false
  | a :: as, b :: bs => a == b && charsHasPfx as bs

/-- Whether the second character list occurs inside the first. -/
def charsContains : List Char → List Char → Bool
  | [], pat => charsHasPfx [] pat
  | a :: as, pat => charsHasPfx (a :: as) pat || charsContains as pat

/-- Substring containment, as the python in operator on strings. -/
def strContains (s pat : String) : Bool := charsContains s.data pat.data

/-- Whether the string ends with the given suffix. -/
def strEndsWith (s pat : String) : Bool := charsHasPfx s.data.reverse pat.data.reverse

/-- Join a list of strings with a separator, as the python str.join. -/
def joinSep (sep : String) : List String → String
  | [] => ""
  | [x] => x
  | x :: xs => x ++ sep ++ joinSep sep xs

/-- attrmap.is_attribute: the selector denotes an XML attribute. -/
def is_attribute (fieldname : String) : Bool := charsHasPfx fieldname.data "@".data

/-- attrmap.is_content: the selector denotes XML text content. -/
def is_content (fieldname : String) : Bool := fieldname == "text()"

/-- utils.is_node: the selector contains a node axis. -/
def is_node (field : String) : Bool :=
  strContains field XPATH_AXIS_SELF_NODE || strContains field XPATH_AXIS_DESCENDANT_OR_SELF_NODE

/-- attrmap.xmlfield: the wire selector recorded for a named attribute of an
entity, none when the mapping table has no entry. -/
def xmlfield (e : Node) (attr : String) : Option String :=
  match e with
  | .ent _ _ _ _ _ fs =>
      match fs.find? (fun f => f.fnameOf == attr) with
      | some f => f.selOf
      | none => none
  | .scalar _ _ _ => none

/-- Whether a field holds the given child: a single value is compared by
object identity (the is operator of the source), a list value by python
membership, hence == equality. -/
def fld_matches_child (f : Fld) (child : Node) : Bool :=
  match f with
  | .one _ _ v => v.idOf == child.idOf
  | .many _ _ vs => vs.any (fun x => nodeEqPy x child)

/-- The inner-step branch of MarkingSerializer._map_to_xml: find the typed
field of the parent holding the next entity of the chain and return its wire
selector; none propagates as a SerializerMappingError. -/
def map_to_xml_inner (parentN : Node) (child : Node) : Option String :=
  match parentN with
  | .ent _ _ _ _ _ fs =>
      match fs.find? (fun f => fld_matches_child f child) with
      | some f => f.selOf
      | none => none
  | .scalar _ _ _ => none

/-- Scan of the typed fields for MarkingSerializer._find_index_of_seq: the
first list-valued field containing (by ==) the target yields the 1-based
list.index of the first ==-equal item; 1 otherwise.  The identity-based
fallback of the source is dead code (it catches KeyError, which list.index
never raises), so the position found is that of the first value-equal item,
not necessarily of the target itself. -/
def findIdxFlds : List Fld → Node → Nat
  | [], _ => 1
  | .one _ _ _ :: fs, t => findIdxFlds fs t
  | .many _ _ ns :: fs, t =>
      if ns.any (fun x => nodeEqPy x t) then
        match ns.findIdx? (fun x => nodeEqPy x t) with
        | some i => i + 1
        | none => 1
      else findIdxFlds fs t

/-- MarkingSerializer._find_index_of_seq: the 1-based positional predicate of
an object below its parent.  Entities and scalars are not python sequences
themselves, so only their typed fields are scanned. -/
def find_index_of_seq (obj : Node) (target : Node) : Nat :=
  match obj with
  | .scalar _ _ _ => 1
  | .ent _ _ _ _ _ fs => findIdxFlds fs target

/-- One synthesized path step (xml.XPATH_STRUCTURE): attribute, content and
node-axis selectors are appended bare; element selectors are rendered with
the namespace prefix and the positional predicate. -/
def xpath_step (e : Node) (sel : String) (pred : Nat) : String :=
  if is_attribute sel || is_content sel || is_node sel then sel
  else e.pfxOf ++ ":" ++ sel ++ "[" ++ toString pred ++ "]"

/-- The ancestors loop of MarkingSerializer._find_path_and_handling: each
non-final ancestor contributes the selector of the edge to the next entity
with its positional predicate (_resolve_xpath_predicate); the final ancestor
contributes the selector of the marked field with the predicate of the
marked value.  A missing mapping is a SerializerMappingError. -/
def synth_steps : List Node → String → Node → Except Err (List String)
  | [], _, _ => .ok []
  | [last], fieldName, fieldValue =>
      match xmlfield last fieldName with
      | none => .error .serializerMappingError
      | some sel => .ok [xpath_step last sel (find_index_of_seq last fieldValue)]
  | a :: b :: rest, fieldName, fieldValue =>
      match map_to_xml_inner a b with
      | none => .error .serializerMappingError
      | some sel =>
          match synth_steps (b :: rest) fieldName fieldValue with
          | .error e => .error e
          | .ok more => .ok (xpath_step a sel (find_index_of_seq a b) :: more)

/-- Reference to a handling container: an entity's own handling or the
package-level STIX header handling. -/
inductive HRef where
  | header
  | entH (eid : Nat)
deriving DecidableEq, Repr

/-- MarkingSerializer._resolve_handling: anchor the marking at the first
ancestor defining a handling container (or at a Report header), trimming the
ancestor chain to start there; otherwise anchor at the marked value itself
when it defines one; otherwise keep the whole chain and anchor at the
package STIX header.  Returns the trimmed chain, the relative path start and
the handling reference. -/
def resolve_handling (anc : List Node) (fieldValue : Node) :
    List Node × List String × HRef :=
  match anc.find? (fun e => e.hasHandlingB || e.isReportB) with
  | some e =>
      ( anc.dropWhile (fun x => x.idOf != e.idOf)
      , [if e.hasHandlingB then XPATH_TLO_RELATIVE_START else XPATH_HEADER_RELATIVE_START]
      , .entH e.idOf)
  | none =>
      if fieldValue.hasHandlingB then ([], [XPATH_TLO_RELATIVE_START], .entH fieldValue.idOf)
      else if fieldValue.isReportB then ([], [XPATH_HEADER_RELATIVE_START], .entH fieldValue.idOf)
      else (anc, [XPATH_HEADER_RELATIVE_START], .header)

/-- Append the final node axis of MarkingSerializer._find_path_and_handling:
unless the last synthesized component is an attribute or content selector,
the self axis (descendants false) or the self-and-descendants axis
(descendants true) is appended. -/
def append_final_axis (xs : List String) (descendants : Bool) : List String :=
  match xs.getLast? with
  | some l =>
      if is_attribute l || is_content l then xs
      else xs ++ [if descendants then XPATH_AXIS_DESCENDANT_OR_SELF_NODE else XPATH_AXIS_SELF_NODE]
  | none => xs

/-- Join the synthesized components and, when the expression selects
descendants, union in the all-attributes clause, as the tail of
MarkingSerializer._find_path_and_handling. -/
def join_path (xs : List String) (descendants : Bool) : String :=
  let joined := joinSep XPATH_SELECT_OPERATOR xs
  if strContains joined XPATH_AXIS_DESCENDANT_OR_SELF_NODE && descendants then
    joined ++ " | " ++ joined ++ XPATH_SELECT_OPERATOR ++ XPATH_WILDCARD_ALL_ATTRS
  else joined

/-- MarkingSerializer._find_path_and_handling: locate the marked field in the
tree by object identity along navigator.iterpath (a
SerializerFieldNotFoundError when absent), resolve the handling anchor,
synthesize the steps, append the final axis and join. -/
def find_path_and_handling (pkg : Node) (field : Node) (descendants : Bool) :
    Except Err (String × HRef) :=
  match (iterpath [] pkg).find? (fun t => t.value.idOf == field.idOf) with
  | none => .error .serializerFieldNotFoundError
  | some t =>
      match resolve_handling t.ancestors t.value with
      | (anc2, x0, href) =>
          match synth_steps anc2 t.fname t.value with
          | .error e => .error e
          | .ok steps => .ok (join_path (append_final_axis (x0 ++ steps) descendants) descendants, href)

/-- Append a resolved marking record to a handling container. -/
def add_to_handling (c : Container) (h : HRef) (m : Marking) : Container :=
  match h with
  | .header => { c with headerHandling := c.headerHandling ++ [m] }
  | .entH i => { c with handlingMap := fun j => if j = i then c.handlingMap j ++ [m] else c.handlingMap j }

/-- Contents of a referenced handling container. -/
def handling_at (c : Container) : HRef → List Marking
  | .header => c.headerHandling
  | .entH i => c.handlingMap i

/-- MarkingSerializer._apply_global_markings: a deep copy of every buffered
global marking, with the global controlled structure assigned, is added to
the package header handling. -/
def apply_global_markings (c : Container) : Container :=
  c.global_markings.foldl
    (fun acc m => add_to_handling acc .header { m with controlled_structure := some XPATH_GLOBAL_ALL_FIELDS }) c

/-- MarkingSerializer._apply_null_markings: a deep copy of every buffered
null marking is added to the package header handling; its controlled
structure stays absent. -/
def apply_null_markings (c : Container) : Container :=
  c.null_markings.foldl (fun acc m => add_to_handling acc .header m) c

/-- MarkingSerializer._apply_markings_to_field: resolve the path and handling
for each recorded (marking, descendants) pair of one field and add the
resolved copy there.  An error propagates, keeping the records already
embedded (python exceptions leave the earlier tree mutations in place). -/
def apply_markings_to_field (c : Container) (f : Node) :
    List (Marking × Bool) → Container × Option Err
  | [] => (c, none)
  | (m, d) :: rest =>
      match find_path_and_handling c.package f d with
      | .error e => (c, some e)
      | .ok (p, href) =>
          apply_markings_to_field (add_to_handling c href { m with controlled_structure := some p }) f rest

/-- MarkingSerializer._apply_field_markings: process every field entry in
insertion order. -/
def apply_field_markings (c : Container) :
    List (Node × List (Marking × Bool)) → Container × Option Err
  | [] => (c, none)
  | (f, lst) :: rest =>
      match apply_markings_to_field c f lst with
      | (c1, some e) => (c1, some e)
      | (c1, none) => apply_field_markings c1 rest

/-- MarkingContainer.flush: apply the global, field and null scopes through
the serializer and then reset the three buffered collections.  On an error
the exception propagates: the collections are left untouched and only the
records embedded before the failure are in the tree. -/
def flush (c : Container) : Container × Option Err :=
  let c1 := apply_global_markings c
  match apply_field_markings c1 c1.field_markings with
  | (c2, some e) => (c2, some e)
  | (c2, none) =>
      let c3 := apply_null_markings c2
      ({ c3 with field_markings := [], global_markings := [], null_markings := [] }, none)

/-! Ingest keying: the node keys of stixmarx.markingmap.MarkingMap. -/

/-- An XML attribute or text occurrence as keyed by markingmap._XmlAttribute:
its local name, the identity of its parent element and its string value.
An lxml smart string compares equal by value alone, which is why the source
wraps it: equality of two wrapped occurrences additionally requires the same
name and the same parent object. -/
structure XmlAttrOcc where
  aname : String
  parentId : Nat
  sval : String
deriving DecidableEq, Repr

/-- An XML node handed to MarkingMap._make_key: an element (keyed by the
identity of its source node, per markingmap._XmlElement equality) or an
attribute/text occurrence. -/
inductive XmlNode where
  | elem (srcId : Nat) (lname : String)
  | attrOcc (occ : XmlAttrOcc)
deriving DecidableEq, Repr

/-- A MarkingMap key with the equality semantics of the source wrappers:
elements by source-node identity, attribute and text occurrences by value,
name and parent identity together. -/
inductive MapKey where
  | elemKey (srcId : Nat)
  | attrKey (occ : XmlAttrOcc)
deriving DecidableEq, Repr

/-- MarkingMap._make_key. -/
def make_key : XmlNode → MapKey
  | .elem i _ => .elemKey i
  | .attrOcc o => .attrKey o

/-- The MarkingMap index: keys to sets of marking-specification identities. -/
abbrev MarkingMap : Type := List (MapKey × List Nat)

/-- Lookup of a MarkingMap entry. -/
def mm_find : MarkingMap → MapKey → Option (List Nat)
  | [], _ => none
  | (k0, v0) :: rest, k => if k0 == k then some v0 else mm_find rest k

/-- Update-or-append of a MarkingMap entry. -/
def mm_set : MarkingMap → MapKey → List Nat → MarkingMap
  | [], k, v => [(k, v)]
  | (k0, v0) :: rest, k, v =>
      if k0 == k then (k, v) :: rest else (k0, v0) :: mm_set rest k v

/-- MarkingMap.add: make the key for the node, create an empty entry when
absent, and add the value to the entry's set. -/
def mm_add (mm : MarkingMap) (n : XmlNode) (v : Nat) : MarkingMap :=
  let k := make_key n
  match mm_find mm k with
  | some s => mm_set mm k (if v ∈ s then s else s ++ [v])
  | none => mm_set mm k [v]

/-- MarkingParser._set_list_field_marking, applied to the freshly parsed
items of one list-valued builtin field (no prior markings).  The items and
the XML occurrences of the field correspond one to one in document order;
cov gives, per occurrence, the payloads of the marking specifications that
cover it in the marking map.  The source first selects the covered
occurrences (marked) and then loops over every index of the value list
and, inside, over every covered occurrence, attaching that occurrence's
specifications to the item at the current index and storing the cast
result back; the index plays no role in selecting which specifications are
attached, so every item of the list receives the specifications of every
covered occurrence.  Returns the per-item payload lists after the pass. -/
def set_list_field_marking (cov : Node → List Nat) (items : List Node) :
    List (List Nat) :=
  let marked := items.filter (fun x => !(cov x).isEmpty)
  items.map (fun _ => (marked.map cov).flatten)

/-! Concrete scenario fixtures used by the theorems below.  All trees are
small STIX documents: a package root wrapping top-level entities with scalar
leaves; ids are distinct and the wrapper allocator of each container starts
at 100, above every tree id. -/

/-- A marking payload. -/
def M1 : Marking := ⟨1, none⟩

/-- A second marking payload. -/
def M2 : Marking := ⟨2, none⟩

/-- A third marking payload, used as a null marking. -/
def M3 : Marking := ⟨3, none⟩

/-- An indicator nested inside an incident (the removal-guard scenario). -/
def B4 : Node := .ent 2 "indicator" false false false []

/-- An incident entity holding the nested indicator. -/
def A4 : Node := .ent 1 "incident" false false false [.one "related_indicators" none B4]

/-- A package wrapping the incident. -/
def pkg4 : Node := .ent 0 "stix" false true false [.one "incidents" none A4]

/-- Fresh container on the incident scenario. -/
def c4_0 : Container := initContainer pkg4 100

/-- The incident marked with M1 covering descendants. -/
def c4_1 : Container := (add_marking c4_0 (some A4) M1 true).1

/-- A raw (unwrapped) title string leaf. -/
def rawTitle : Node := .scalar 2 "Test" false

/-- An indicator whose title is a raw builtin string. -/
def indC2 : Node := .ent 1 "indicator" true false false [.one "title" (some "Title") rawTitle]

/-- A package wrapping the raw-title indicator. -/
def pkgC2 : Node := .ent 0 "stix" false true false [.one "indicators" (some "Indicators") indC2]

/-- Fresh container on the raw-title scenario. -/
def c2_0 : Container := initContainer pkgC2 100

/-- The raw-title indicator marked with M1 covering descendants. -/
def c2_1 : Container := (add_marking c2_0 (some indC2) M1 true).1

/-- First item of a repeated scalar list field, value "foo", already
wrapped (a stixmarx.api.types wrapper stored in the list). -/
def itemOne : Node := .scalar 2 "foo" true

/-- Second item of the same list field, also value "foo", a distinct
wrapped occurrence. -/
def itemTwo : Node := .scalar 3 "foo" true

/-- An indicator with two value-equal items in its alternative_id list. -/
def indC1 : Node :=
  .ent 1 "indicator" true false false [.many "alternative_id" (some "Alternative_ID") [itemOne, itemTwo]]

/-- A package wrapping the repeated-value indicator. -/
def pkgC1 : Node := .ent 0 "stix" false true false [.one "indicators" (some "Indicators") indC1]

/-- Fresh container on the repeated-value scenario. -/
def c1_0 : Container := initContainer pkgC1 100

/-- The first list item marked with M1. -/
def c1_1 : Container := (add_marking c1_0 (some itemOne) M1 false).1

/-- The second list item additionally marked with M2: the two value-equal
occurrences now carry different payload sets. -/
def c1_2 : Container := (add_marking c1_1 (some itemTwo) M2 false).1

/-- A wrapped id attribute leaf (wire selector @id). -/
def idAttr : Node := .scalar 2 "example:1" true

/-- A wrapped title leaf (wire selector an element localname). -/
def sTitle : Node := .scalar 3 "Some title" true

/-- A wrapped value leaf (wire selector the text selector). -/
def sText : Node := .scalar 4 "10.0.0.1" true

/-- An indicator with an attribute-mapped, an element-mapped and a
text-mapped scalar leaf. -/
def indC7 : Node :=
  .ent 1 "indicator" true false false
    [ .one "id_" (some "@id") idAttr
    , .one "title" (some "Title") sTitle
    , .one "value" (some "text()") sText ]

/-- A package wrapping the three-leaf indicator. -/
def pkgC7 : Node := .ent 0 "stix" false true false [.one "indicators" (some "Indicators") indC7]

/-- Fresh container on the three-leaf scenario. -/
def c7_0 : Container := initContainer pkgC7 100

/-- The three-leaf indicator marked with M1 (descendants false). -/
def c7_1 : Container := (add_marking c7_0 (some indC7) M1 false).1

/-- The same container after clear_markings on the indicator. -/
def c7_2 : Container := clear_markings c7_1 indC7 false

/-- Fresh container on the raw-title scenario for the failing-flush run. -/
def c6_0 : Container := initContainer pkgC2 100

/-- A global marking buffered before the failing flush. -/
def c6_1 : Container := (add_global c6_0 M2).1

/-- The raw title marked through the store; the wrapper returned by
add_marking is not stored back into the tree, so the recorded field marking
references an object the serializer cannot locate. -/
def c6_2 : Container := (add_marking c6_1 (some rawTitle) M1 false).1

/-- Fresh container on the incident scenario for the root-marking run. -/
def c8_0 : Container := initContainer pkg4 100

/-- Two sibling indicators below one package. -/
def X3 : Node := .ent 1 "indicator" false false false []

/-- Second sibling indicator. -/
def Y3 : Node := .ent 2 "indicator" false false false []

/-- A package holding the two sibling indicators in one list field. -/
def pkgSib : Node := .ent 0 "stix" false true false [.many "indicators" (some "Indicator") [X3, Y3]]

/-- Fresh container on the sibling scenario. -/
def cSib0 : Container := initContainer pkgSib 100

/-- The sibling scenario with M1 added globally. -/
def cg1 : Container := (add_global cSib0 M1).1

/-- The sibling scenario with M1 added to the first sibling. -/
def cs1 : Container := (add_marking cSib0 (some X3) M1 false).1

/-- A flushable container holding one marking of each scope: a global M2, a
field marking M1 on the three-leaf indicator, and a null M3. -/
def c5a : Container := (add_global (initContainer pkgC7 100) M2).1

/-- The flushable container after the field marking. -/
def c5b : Container := (add_marking c5a (some indC7) M1 false).1

/-- The flushable container after the null marking. -/
def c5c : Container := (add_marking c5b none M3 false).1

/-- The three-leaf scenario with the wrapped id attribute marked. -/
def cAttr : Container := (add_marking c7_0 (some idAttr) M1 false).1

/-! Theorems.  Each claim of the specification gets one theorem below;
helper lemmas shared between proofs carry neutral names. -/

/-- Claim C1 (round-trip of the marking overlay).  The code cannot satisfy
the round-trip when two value-equal items of one builtin list field carry
different payload sets.  Serializer side: the positional predicate of a
marked list item is computed by _find_index_of_seq through the value-based
list.index, so both items yield the same controlled structure with
predicate 1 (the identity-based fallback of the source is dead code: it
guards list.index with except KeyError, but list.index raises ValueError),
and flush embeds the two records with identical paths.  Parser side: the
list pass of the parser attaches every covered occurrence's specifications
to every item of the list, so after re-parsing every item of the list
carries one and the same payload list, whatever node set the embedded
paths evaluate to; in particular, under the assignment the two identical
embedded paths produce (both covering the first occurrence), every item
returns the payload list of both records.  Since the originally applied
sets differ between the two marked items, no single returned set is
payload-equal to both, so get_markings cannot return the applied set for
every originally marked node. -/
theorem C1_round_trip_list_collapse :
    find_path_and_handling pkgC1 itemOne false =
      .ok ("../../../indicator:Alternative_ID[1]/self::node()", .entH 1)
    ∧ find_path_and_handling pkgC1 itemTwo false =
      .ok ("../../../indicator:Alternative_ID[1]/self::node()", .entH 1)
    ∧ itemOne.idOf ≠ itemTwo.idOf
    ∧ find_index_of_seq indC1 itemTwo = 1
    ∧ c1_2.attached itemOne.idOf = [M1]
    ∧ c1_2.attached itemTwo.idOf = [M2]
    ∧ (flush c1_2).2 = none
    ∧ ((flush c1_2).1).handlingMap 1 =
        [⟨1, some "../../../indicator:Alternative_ID[1]/self::node()"⟩,
         ⟨2, some "../../../indicator:Alternative_ID[1]/self::node()"⟩]
    ∧ set_list_field_marking
        (fun x => if x.idOf = itemOne.idOf then [M1.payload, M2.payload] else [])
        [itemOne, itemTwo] = [[1, 2], [1, 2]]
    ∧ (∀ cov : Node → List Nat,
        (set_list_field_marking cov [itemOne, itemTwo]).get? 0
          = (set_list_field_marking cov [itemOne, itemTwo]).get? 1)
    ∧ (∀ s : List Nat,
        (∀ p, p ∈ s ↔ p ∈ [M1.payload]) → (∀ p, p ∈ s ↔ p ∈ [M2.payload]) → False) :=
  ⟨rfl, rfl, by decide, rfl, by decide, by decide, rfl, rfl, by decide,
   fun cov => rfl,
   fun s h1 h2 =>
     absurd ((h2 M1.payload).mp ((h1 M1.payload).mpr (List.mem_singleton_self _)))
       (by decide)⟩

mutual
/-- Depth-first shape of the Navigator traversal: a walked descendant is
yielded and immediately followed by its own complete walk. -/
theorem walk_decomp (P A : Node) (h : A ∈ iterwalk P) :
    ∃ pre post, iterwalk P = pre ++ A :: (iterwalk A ++ post) := by
  cases P with
  | ent i p hh pk rp fs =>
      have h2 : A ∈ iterwalkFlds fs := h
      exact walkFlds_decomp fs A h2
  | scalar i v w => cases h

/-- Depth-first shape of the traversal over a field list. -/
theorem walkFlds_decomp (fs : List Fld) (A : Node) (h : A ∈ iterwalkFlds fs) :
    ∃ pre post, iterwalkFlds fs = pre ++ A :: (iterwalk A ++ post) := by
  cases fs with
  | nil => cases h
  | cons f fs =>
      have h2 : A ∈ iterwalkFld f ++ iterwalkFlds fs := h
      rcases List.mem_append.mp h2 with hl | hr
      · obtain ⟨pre, post, heq⟩ := walkFld_decomp f A hl
        refine ⟨pre, post ++ iterwalkFlds fs, ?_⟩
        show iterwalkFld f ++ iterwalkFlds fs = _
        rw [heq]
        simp
      · obtain ⟨pre, post, heq⟩ := walkFlds_decomp fs A hr
        refine ⟨iterwalkFld f ++ pre, post, ?_⟩
        show iterwalkFld f ++ iterwalkFlds fs = _
        rw [heq]
        simp

/-- Depth-first shape of the traversal of a single field. -/
theorem walkFld_decomp (f : Fld) (A : Node) (h : A ∈ iterwalkFld f) :
    ∃ pre post, iterwalkFld f = pre ++ A :: (iterwalk A ++ post) := by
  cases f with
  | one nm s n =>
      have h2 : A ∈ n :: iterwalk n := h
      rcases List.mem_cons.mp h2 with he | hm
      · subst he
        exact ⟨[], [], by simp [iterwalkFld]⟩
      · obtain ⟨pre, post, heq⟩ := walk_decomp n A hm
        refine ⟨n :: pre, post, ?_⟩
        show n :: iterwalk n = _
        rw [heq]
        simp
  | many nm s ns =>
      have h2 : A ∈ iterwalkList ns := h
      exact walkList_decomp ns A h2

/-- Depth-first shape of the traversal over list-field items. -/
theorem walkList_decomp (ns : List Node) (A : Node) (h : A ∈ iterwalkList ns) :
    ∃ pre post, iterwalkList ns = pre ++ A :: (iterwalk A ++ post) := by
  cases ns with
  | nil => cases h
  | cons n ns =>
      have h2 : A ∈ (n :: iterwalk n) ++ iterwalkList ns := h
      rcases List.mem_append.mp h2 with hl | hr
      · rcases List.mem_cons.mp hl with he | hm
        · subst he
          refine ⟨[], iterwalkList ns, ?_⟩
          show (A :: iterwalk A) ++ iterwalkList ns = _
          simp
        · obtain ⟨pre, post, heq⟩ := walk_decomp n A hm
          refine ⟨n :: pre, post ++ iterwalkList ns, ?_⟩
          show (n :: iterwalk n) ++ iterwalkList ns = _
          rw [heq]
          simp
      · obtain ⟨pre, post, heq⟩ := walkList_decomp ns A hr
        refine ⟨(n :: iterwalk n) ++ pre, post, ?_⟩
        show (n :: iterwalk n) ++ iterwalkList ns = _
        rw [heq]
        simp
end

/-- The api attach step never decreases the wrapper allocator. -/
theorem api_add_nextId_le (c : Container) (n : Node) (m : Marking) :
    c.nextId ≤ ((api_add_marking c n m).1).nextId := by
  cases n with
  | ent i p hh pk rp fs => exact Nat.le_refl _
  | scalar i v w =>
      cases w with
      | false => exact Nat.le_succ _
      | true => exact Nat.le_refl _

/-- The api attach step changes no attached set at an id below the
allocator other than the target's own. -/
theorem api_add_attached_ne (c : Container) (n : Node) (m : Marking) (j : Nat)
    (hne : j ≠ n.idOf) (hlt : j < c.nextId) :
    ((api_add_marking c n m).1).attached j = c.attached j := by
  cases n with
  | ent i p hh pk rp fs =>
      have hj : j ≠ i := hne
      simp [api_add_marking, updateFun, Node.idOf, hj]
  | scalar i v w =>
      cases w with
      | false =>
          have hj : j ≠ c.nextId := Nat.ne_of_lt hlt
          simp [api_add_marking, updateFun, hj]
      | true =>
          have hj : j ≠ i := hne
          simp [api_add_marking, updateFun, Node.idOf, hj]

/-- Attached set of an in-place markable target after the api attach. -/
theorem api_add_attached_self (c : Container) (n : Node) (m : Marking)
    (hip : in_place_markable n = true) :
    ((api_add_marking c n m).1).attached n.idOf = setInsert m (c.attached n.idOf) := by
  cases n with
  | ent i p hh pk rp fs => simp [api_add_marking, updateFun, Node.idOf]
  | scalar i v w =>
      cases w with
      | false => simp [in_place_markable] at hip
      | true => simp [api_add_marking, updateFun, Node.idOf]

/-- The object returned by the api attach is the input itself when the
input carries markings in place. -/
theorem api_add_marked_self (c : Container) (n : Node) (m : Marking)
    (hip : in_place_markable n = true) : (api_add_marking c n m).2 = n := by
  cases n with
  | ent i p hh pk rp fs => rfl
  | scalar i v w =>
      cases w with
      | false => simp [in_place_markable] at hip
      | true => rfl

/-- The api attach step keeps the package and the three buffered scopes. -/
theorem api_add_buffers (c : Container) (n : Node) (m : Marking) :
    ((api_add_marking c n m).1).package = c.package
    ∧ ((api_add_marking c n m).1).field_markings = c.field_markings
    ∧ ((api_add_marking c n m).1).global_markings = c.global_markings
    ∧ ((api_add_marking c n m).1).null_markings = c.null_markings := by
  cases n with
  | ent i p hh pk rp fs => exact ⟨rfl, rfl, rfl, rfl⟩
  | scalar i v w =>
      cases w with
      | false => exact ⟨rfl, rfl, rfl, rfl⟩
      | true => exact ⟨rfl, rfl, rfl, rfl⟩

/-- The eager descendant fold keeps the package and the buffered scopes. -/
theorem foldl_api_add_buffers (m : Marking) (L : List Node) (c : Container) :
    ((L.foldl (fun acc d => (api_add_marking acc d m).1) c).package = c.package)
    ∧ ((L.foldl (fun acc d => (api_add_marking acc d m).1) c).field_markings
        = c.field_markings)
    ∧ ((L.foldl (fun acc d => (api_add_marking acc d m).1) c).global_markings
        = c.global_markings) := by
  induction L generalizing c with
  | nil => exact ⟨rfl, rfl, rfl⟩
  | cons a L ih =>
      rw [List.foldl_cons]
      obtain ⟨h1, h2, h3⟩ := ih ((api_add_marking c a m).1)
      obtain ⟨g1, g2, g3, _⟩ := api_add_buffers c a m
      exact ⟨h1.trans g1, h2.trans g2, h3.trans g3⟩

/-- The eager descendant fold never decreases the allocator and leaves the
attached set of any id that is below the starting allocator and outside the
walked ids unchanged. -/
theorem foldl_api_add_untouched (m : Marking) (L : List Node) (c : Container) (j : Nat)
    (hj : j ∉ L.map Node.idOf) (hlt : j < c.nextId) :
    ((L.foldl (fun acc d => (api_add_marking acc d m).1) c).attached j = c.attached j)
    ∧ c.nextId ≤ (L.foldl (fun acc d => (api_add_marking acc d m).1) c).nextId := by
  induction L generalizing c with
  | nil => exact ⟨rfl, Nat.le_refl _⟩
  | cons a L ih =>
      rw [List.foldl_cons]
      have hja : j ≠ a.idOf := by
        intro he
        exact hj (by rw [List.map_cons, he]; exact List.mem_cons_self _ _)
      have hjL : j ∉ L.map Node.idOf := fun hmem =>
        hj (by rw [List.map_cons]; exact List.mem_cons_of_mem _ hmem)
      have hlt2 : j < ((api_add_marking c a m).1).nextId :=
        Nat.lt_of_lt_of_le hlt (api_add_nextId_le c a m)
      obtain ⟨h1, h2⟩ := ih ((api_add_marking c a m).1) hjL hlt2
      exact ⟨h1.trans (api_add_attached_ne c a m j hja hlt),
             Nat.le_trans (api_add_nextId_le c a m) h2⟩

/-- Over a duplicate-free walk the eager fold sets the attached set of an
in-place markable member to exactly the inserted extension of its previous
set. -/
theorem foldl_api_add_value (m : Marking) (L : List Node) (c : Container) (B : Node)
    (hnd : (L.map Node.idOf).Nodup) (hB : B ∈ L) (hip : in_place_markable B = true)
    (hlt : B.idOf < c.nextId) :
    (L.foldl (fun acc d => (api_add_marking acc d m).1) c).attached B.idOf
      = setInsert m (c.attached B.idOf) := by
  induction L generalizing c with
  | nil => cases hB
  | cons a L ih =>
      rw [List.foldl_cons]
      rw [List.map_cons, List.nodup_cons] at hnd
      by_cases hid : a.idOf = B.idOf
      · have hBa : B = a := by
          rcases List.mem_cons.mp hB with h | h
          · exact h
          · exact absurd (hid ▸ List.mem_map_of_mem Node.idOf h) hnd.1
        subst hBa
        have hjL : B.idOf ∉ L.map Node.idOf := hnd.1
        have hlt2 : B.idOf < ((api_add_marking c B m).1).nextId :=
          Nat.lt_of_lt_of_le hlt (api_add_nextId_le c B m)
        exact (foldl_api_add_untouched m L _ B.idOf hjL hlt2).1.trans
          (api_add_attached_self c B m hip)
      · have hBL : B ∈ L := by
          rcases List.mem_cons.mp hB with h | h
          · exact absurd (h ▸ rfl) hid
          · exact h
        have hlt2 : B.idOf < ((api_add_marking c a m).1).nextId :=
          Nat.lt_of_lt_of_le hlt (api_add_nextId_le c a m)
        have hne : B.idOf ≠ a.idOf := fun he => hid he.symm
        rw [ih ((api_add_marking c a m).1) hnd.2 hBL hlt2,
            api_add_attached_ne c a m B.idOf hne hlt]

/-- The api detach step changes no attached set other than the target's. -/
theorem api_remove_attached_ne (c : Container) (n : Node) (m : Marking) (j : Nat)
    (hne : j ≠ n.idOf) : (api_remove_marking c n m).attached j = c.attached j := by
  simp [api_remove_marking, updateFun, hne]

/-- One step of the descendant-removal fold leaves every other id alone. -/
theorem remove_step_attached_ne (c : Container) (d : Node) (m : Marking) (j : Nat)
    (hne : j ≠ d.idOf) :
    (if m ∈ api_get_markings c d then api_remove_marking c d m else c).attached j
      = c.attached j := by
  split
  · exact api_remove_attached_ne c d m j hne
  · rfl

/-- One step of the descendant-removal fold erases the marking from the
processed target's attached set (a no-op erase when it is absent). -/
theorem remove_step_value (c : Container) (d : Node) (m : Marking) :
    (if m ∈ api_get_markings c d then api_remove_marking c d m else c).attached d.idOf
      = (c.attached d.idOf).erase m := by
  split
  · simp [api_remove_marking, updateFun]
  · next h => exact (List.erase_of_not_mem h).symm

/-- The descendant-removal fold leaves ids outside the walked list alone. -/
theorem foldl_remove_untouched (m : Marking) (L : List Node) (c : Container) (j : Nat)
    (hj : j ∉ L.map Node.idOf) :
    (L.foldl (fun acc d =>
        if m ∈ api_get_markings acc d then api_remove_marking acc d m else acc) c).attached j
      = c.attached j := by
  induction L generalizing c with
  | nil => rfl
  | cons a L ih =>
      rw [List.foldl_cons]
      have hja : j ≠ a.idOf := by
        intro he
        exact hj (by rw [List.map_cons, he]; exact List.mem_cons_self _ _)
      have hjL : j ∉ L.map Node.idOf := fun hmem =>
        hj (by rw [List.map_cons]; exact List.mem_cons_of_mem _ hmem)
      exact (ih _ hjL).trans (remove_step_attached_ne c a m j hja)

/-- Over a duplicate-free walk the descendant-removal fold erases the
marking from a member's attached set. -/
theorem foldl_remove_value (m : Marking) (L : List Node) (c : Container) (B : Node)
    (hnd : (L.map Node.idOf).Nodup) (hB : B ∈ L) :
    (L.foldl (fun acc d =>
        if m ∈ api_get_markings acc d then api_remove_marking acc d m else acc) c).attached B.idOf
      = (c.attached B.idOf).erase m := by
  induction L generalizing c with
  | nil => cases hB
  | cons a L ih =>
      rw [List.foldl_cons]
      rw [List.map_cons, List.nodup_cons] at hnd
      by_cases hid : a.idOf = B.idOf
      · have hBa : B = a := by
          rcases List.mem_cons.mp hB with h | h
          · exact h
          · exact absurd (hid ▸ List.mem_map_of_mem Node.idOf h) hnd.1
        subst hBa
        exact (foldl_remove_untouched m L _ B.idOf hnd.1).trans
          (remove_step_value c B m)
      · have hBL : B ∈ L := by
          rcases List.mem_cons.mp hB with h | h
          · exact absurd (h ▸ rfl) hid
          · exact h
        have hne : B.idOf ≠ a.idOf := fun he => hid he.symm
        rw [ih _ hnd.2 hBL, remove_step_attached_ne c a m B.idOf hne]

/-- The descendant-removal fold keeps the buffered global scope. -/
theorem foldl_remove_global (m : Marking) (L : List Node) (c : Container) :
    (L.foldl (fun acc d =>
        if m ∈ api_get_markings acc d then api_remove_marking acc d m else acc) c).global_markings
      = c.global_markings := by
  induction L generalizing c with
  | nil => rfl
  | cons a L ih =>
      rw [List.foldl_cons]
      refine (ih _).trans ?_
      split
      · rfl
      · rfl

/-- The first element of a split list satisfying the predicate is the split
point when the left part fails it everywhere. -/
theorem find_append_cons (p : Node → Bool) (l1 l2 : List Node) (a : Node)
    (h1 : ∀ x ∈ l1, p x = false) (h2 : p a = true) :
    List.find? p (l1 ++ a :: l2) = some a := by
  induction l1 with
  | nil => simp [List.find?, h2]
  | cons b l ih =>
      have hb : p b = false := h1 b (List.mem_cons_self _ _)
      rw [List.cons_append, List.find?_cons_of_neg _ (by simp [hb])]
      exact ih (fun x hx => h1 x (List.mem_cons_of_mem _ hx))

/-- Outcome and post-state of a successful component add_marking call on an
in-place markable non-root target of a store with no field records: the
regular path through the source attaches through the api, runs the eager
descendant pass when requested, and records the pair keyed by the marked
object, which is the target itself. -/
theorem add_marking_ok_eq (c : Container) (A : Node) (m : Marking) (d : Bool)
    (hcs : m.controlled_structure = none)
    (hnm : m ∉ get_markings c A false false)
    (hApkg : A.isPkgB = false)
    (hip : in_place_markable A = true)
    (hfm : c.field_markings = []) :
    add_marking c (some A) m d =
      ({ (if d then add_descendants (api_add_marking c A m).1 A m
          else (api_add_marking c A m).1) with
         field_markings := [(A, [(m, d)])] }
      , .ok (some A.idOf)) := by
  have hc1f : ((api_add_marking c A m).1).field_markings = [] :=
    ((api_add_buffers c A m).2.1).trans hfm
  have hmarked : (api_add_marking c A m).2 = A := api_add_marked_self c A m hip
  have hc2f : (if d then add_descendants (api_add_marking c A m).1 A m
      else (api_add_marking c A m).1).field_markings = [] := by
    cases d with
    | false => simpa using hc1f
    | true =>
        simp only [if_true]
        exact ((foldl_api_add_buffers m (iterwalk A) _).2.1).trans hc1f
  unfold add_marking
  rw [if_neg (by simp [hcs])]
  simp only [hmarked, hc1f, hApkg, Bool.not_false, if_true, if_neg hnm]
  rw [if_neg (show ¬((m, d) ∈ (lookupField [] A.idOf).getD []) from by
    simp [lookupField])]
  simp only [hc2f, List.nil_append]
  rfl

/-- Removal from a node that merely carries the marking while the store
keys it to another object: the lookup misses, the depth-first scan stops at
the first carrier, and when that carrier is a different object the source
raises MarkingRemovalError for an inherited marking. -/
theorem remove_inherited_err (c1 : Container) (A B : Node) (m : Marking)
    (hfield : c1.field_markings = [(A, [(m, true)])])
    (hABne : A.idOf ≠ B.idOf)
    (hBpkg : B.isPkgB = false)
    (hmB : m ∈ c1.attached B.idOf)
    (hscan : (iterwalk c1.package).find?
        (fun d => decide (m ∈ api_get_markings c1 d)) = some A) :
    (remove_marking c1 (some B) m false).2 = .error .markingRemovalError := by
  have hb : (A.idOf == B.idOf) = false := by simp [hABne]
  have hlk : lookupField c1.field_markings B.idOf = none := by
    rw [hfield]
    simp [lookupField, List.find?, hb]
  unfold remove_marking
  simp only [hlk]
  rw [if_pos (show m ∈ api_get_markings c1 B from hmB)]
  rw [if_neg (show ¬(B.isPkgB = true) from by rw [hBpkg]; exact Bool.false_ne_true)]
  rw [hscan]
  show (if A.idOf = B.idOf then
      remove_marking_specification
        (if false = true then remove_descendants (api_remove_marking c1 B m) B m
         else api_remove_marking c1 B m) m
    else (c1, Except.error Err.markingRemovalError)).2
    = Except.error Err.markingRemovalError
  rw [if_neg hABne]

/-- Removal from the store-tracked owner with descendants=true: the exact
recorded pair is dropped, the marking is detached from the owner and the
descendant pass runs; the call succeeds and returns the resulting state. -/
theorem remove_marking_owner_eq (c1 : Container) (A : Node) (m : Marking)
    (hfield : c1.field_markings = [(A, [(m, true)])])
    (hmA : m ∈ c1.attached A.idOf) :
    remove_marking c1 (some A) m true
      = (remove_descendants (api_remove_marking
          { c1 with field_markings := [(A, [])] } A m) A m, .ok ()) := by
  have hlk : lookupField c1.field_markings A.idOf = some [(m, true)] := by
    rw [hfield]
    simp [lookupField, List.find?]
  have her : ([(m, true)] : List (Marking × Bool)).erase (m, true) = [] := by simp
  have hsf : setFieldEntry c1.field_markings A [] = [(A, [])] := by
    rw [hfield]
    simp [setFieldEntry]
  unfold remove_marking
  simp only [hlk]
  rw [if_pos (show ((m, true) ∈ [(m, true)]) from List.mem_singleton_self _)]
  rw [her, hsf]
  rw [if_pos (show m ∈ api_get_markings { c1 with field_markings := [(A, [])] } A from hmA)]
  rw [if_pos trivial]

/-- Claim C4 (removal guard).  Over any package tree with duplicate-free
object identities, mark an in-place markable non-root node A of the tree
with descendants=true through a fresh container.  For any in-place markable
non-root strict descendant B of A: removing the marking from B raises
MarkingRemovalError, because the depth-first tree scan of remove_marking
reaches A, the first carrier, before B, so the marking counts as inherited
from an ancestor; removing it from A with descendants=true succeeds; and
afterwards get_markings on B no longer includes the marking. -/
theorem C4_removal_guard (pkg A B : Node) (m : Marking) (alloc : Nat)
    (hcs : m.controlled_structure = none)
    (hA : A ∈ iterwalk pkg) (hB : B ∈ iterwalk A)
    (hApkg : A.isPkgB = false) (hAip : in_place_markable A = true)
    (hBpkg : B.isPkgB = false) (hBip : in_place_markable B = true)
    (hnd : ((iterwalk pkg).map Node.idOf).Nodup)
    (hbound : ∀ j ∈ (iterwalk pkg).map Node.idOf, j < alloc) :
    (add_marking (initContainer pkg alloc) (some A) m true).2 = .ok (some A.idOf)
    ∧ (remove_marking (add_marking (initContainer pkg alloc) (some A) m true).1
        (some B) m false).2 = .error .markingRemovalError
    ∧ (remove_marking (add_marking (initContainer pkg alloc) (some A) m true).1
        (some A) m true).2 = .ok ()
    ∧ m ∉ get_markings
        (remove_marking (add_marking (initContainer pkg alloc) (some A) m true).1
          (some A) m true).1 B false false := by
  obtain ⟨pre, post, hdec⟩ := walk_decomp pkg A hA
  have hmap : (iterwalk pkg).map Node.idOf
      = pre.map Node.idOf ++ A.idOf
          :: ((iterwalk A).map Node.idOf ++ post.map Node.idOf) := by
    rw [hdec]; simp
  rw [hmap] at hnd
  obtain ⟨hndpre, hndrest, hdisj⟩ := List.nodup_append.mp hnd
  obtain ⟨hAnot, hndtail⟩ := List.nodup_cons.mp hndrest
  have hndwA : ((iterwalk A).map Node.idOf).Nodup := (List.nodup_append.mp hndtail).1
  have hAnotwA : A.idOf ∉ (iterwalk A).map Node.idOf := fun h =>
    hAnot (List.mem_append_left _ h)
  have hABne : A.idOf ≠ B.idOf := fun he =>
    hAnotwA (he ▸ List.mem_map_of_mem Node.idOf hB)
  have hBpkgmem : B ∈ iterwalk pkg := by
    rw [hdec]
    exact List.mem_append_right _
      (List.mem_cons_of_mem _ (List.mem_append_left _ hB))
  have hAlt : A.idOf < alloc := by
    have := hbound A.idOf (by rw [hmap]; exact List.mem_append_right _ (List.mem_cons_self _ _))
    exact this
  have hBlt : B.idOf < alloc :=
    hbound B.idOf (List.mem_map_of_mem Node.idOf hBpkgmem)
  have hnm : m ∉ get_markings (initContainer pkg alloc) A false false := by
    simp [get_markings, api_get_markings, initContainer]
  have h_eq := add_marking_ok_eq (initContainer pkg alloc) A m true hcs hnm hApkg hAip rfl
  simp only [if_true] at h_eq
  -- names for the intermediate containers of the add
  have hres1 : (add_marking (initContainer pkg alloc) (some A) m true).2
      = .ok (some A.idOf) := by rw [h_eq]
  have hc1eq : (add_marking (initContainer pkg alloc) (some A) m true).1
      = { add_descendants (api_add_marking (initContainer pkg alloc) A m).1 A m with
          field_markings := [(A, [(m, true)])] } := by rw [h_eq]
  -- attached sets after the add
  have hc1aNext : alloc ≤ ((api_add_marking (initContainer pkg alloc) A m).1).nextId :=
    api_add_nextId_le (initContainer pkg alloc) A m
  have h1 : ((api_add_marking (initContainer pkg alloc) A m).1).attached A.idOf = [m] := by
    rw [api_add_attached_self (initContainer pkg alloc) A m hAip]
    show setInsert m [] = [m]
    simp [setInsert]
  have hattA : (add_descendants (api_add_marking (initContainer pkg alloc) A m).1 A m).attached A.idOf = [m] := by
    unfold add_descendants
    exact ((foldl_api_add_untouched m (iterwalk A) _ A.idOf hAnotwA
      (Nat.lt_of_lt_of_le hAlt hc1aNext)).1).trans h1
  have h2 : ((api_add_marking (initContainer pkg alloc) A m).1).attached B.idOf = [] :=
    api_add_attached_ne (initContainer pkg alloc) A m B.idOf (Ne.symm hABne) hBlt
  have hattB : (add_descendants (api_add_marking (initContainer pkg alloc) A m).1 A m).attached B.idOf = [m] := by
    unfold add_descendants
    rw [foldl_api_add_value m (iterwalk A) _ B hndwA hB hBip
      (Nat.lt_of_lt_of_le hBlt hc1aNext), h2]
    simp [setInsert]
  have hpreatt : ∀ x ∈ pre, (add_descendants (api_add_marking (initContainer pkg alloc) A m).1 A m).attached x.idOf = [] := by
    intro x hx
    have hxid : x.idOf ∈ pre.map Node.idOf := List.mem_map_of_mem Node.idOf hx
    have hxA : x.idOf ≠ A.idOf := fun he =>
      hdisj hxid (he ▸ List.mem_cons_self _ _)
    have hxwA : x.idOf ∉ (iterwalk A).map Node.idOf := fun hmem =>
      hdisj hxid (List.mem_cons_of_mem _ (List.mem_append_left _ hmem))
    have hxmem : x ∈ iterwalk pkg := by
      rw [hdec]; exact List.mem_append_left _ hx
    have hxlt : x.idOf < alloc := hbound x.idOf (List.mem_map_of_mem Node.idOf hxmem)
    unfold add_descendants
    exact ((foldl_api_add_untouched m (iterwalk A) _ x.idOf hxwA
      (Nat.lt_of_lt_of_le hxlt hc1aNext)).1).trans
      (api_add_attached_ne (initContainer pkg alloc) A m x.idOf hxA hxlt)
  have hc2pkg : (add_descendants (api_add_marking (initContainer pkg alloc) A m).1 A m).package = pkg := by
    unfold add_descendants
    exact ((foldl_api_add_buffers m (iterwalk A) _).1).trans
      ((api_add_buffers (initContainer pkg alloc) A m).1)
  have hscan : (iterwalk ({ add_descendants (api_add_marking (initContainer pkg alloc) A m).1 A m with
        field_markings := [(A, [(m, true)])] } : Container).package).find?
      (fun d => decide (m ∈ api_get_markings
        { add_descendants (api_add_marking (initContainer pkg alloc) A m).1 A m with
          field_markings := [(A, [(m, true)])] } d)) = some A := by
    rw [show ({ add_descendants (api_add_marking (initContainer pkg alloc) A m).1 A m with
        field_markings := [(A, [(m, true)])] } : Container).package = pkg from hc2pkg]
    rw [hdec]
    apply find_append_cons
    · intro x hx
      show decide (m ∈ api_get_markings _ x) = false
      show decide (m ∈ (add_descendants (api_add_marking (initContainer pkg alloc) A m).1 A m).attached x.idOf) = false
      rw [hpreatt x hx]
      simp
    · show decide (m ∈ api_get_markings _ A) = true
      show decide (m ∈ (add_descendants (api_add_marking (initContainer pkg alloc) A m).1 A m).attached A.idOf) = true
      rw [hattA]
      simp
  have hmB : m ∈ ({ add_descendants (api_add_marking (initContainer pkg alloc) A m).1 A m with
      field_markings := [(A, [(m, true)])] } : Container).attached B.idOf := by
    show m ∈ (add_descendants (api_add_marking (initContainer pkg alloc) A m).1 A m).attached B.idOf
    rw [hattB]
    exact List.mem_singleton_self m
  have hmA : m ∈ ({ add_descendants (api_add_marking (initContainer pkg alloc) A m).1 A m with
      field_markings := [(A, [(m, true)])] } : Container).attached A.idOf := by
    show m ∈ (add_descendants (api_add_marking (initContainer pkg alloc) A m).1 A m).attached A.idOf
    rw [hattA]
    exact List.mem_singleton_self m
  refine ⟨hres1, ?_, ?_, ?_⟩
  · rw [hc1eq]
    exact remove_inherited_err _ A B m rfl hABne hBpkg hmB hscan
  · rw [hc1eq, remove_marking_owner_eq _ A m rfl hmA]
  · rw [hc1eq, remove_marking_owner_eq _ A m rfl hmA]
    -- post-state of the successful owner removal
    have hg2 : (add_descendants (api_add_marking (initContainer pkg alloc) A m).1 A m).global_markings = [] := by
      unfold add_descendants
      exact ((foldl_api_add_buffers m (iterwalk A) _).2.2).trans
        ((api_add_buffers (initContainer pkg alloc) A m).2.2.1)
    have h5 : (api_remove_marking
        { ({ add_descendants (api_add_marking (initContainer pkg alloc) A m).1 A m with
            field_markings := [(A, [(m, true)])] } : Container) with
          field_markings := [(A, [])] } A m).attached B.idOf = [m] :=
      (api_remove_attached_ne _ A m B.idOf (Ne.symm hABne)).trans hattB
    have hg3 : (remove_descendants (api_remove_marking
        { ({ add_descendants (api_add_marking (initContainer pkg alloc) A m).1 A m with
            field_markings := [(A, [(m, true)])] } : Container) with
          field_markings := [(A, [])] } A m) A m).global_markings = [] := by
      unfold remove_descendants
      exact (foldl_remove_global m (iterwalk A) _).trans hg2
    have hatt3 : (remove_descendants (api_remove_marking
        { ({ add_descendants (api_add_marking (initContainer pkg alloc) A m).1 A m with
            field_markings := [(A, [(m, true)])] } : Container) with
          field_markings := [(A, [])] } A m) A m).attached B.idOf = [] := by
      unfold remove_descendants
      rw [foldl_remove_value m (iterwalk A) _ B hndwA hB, h5]
      simp
    show m ∉ get_markings _ B false false
    simp [get_markings, api_get_markings, hg3, hatt3]

/-- Claim C4, witness: the removal guard applied to the concrete incident
scenario, where the incident A4 is marked with descendants=true and the
nested indicator B4 inherits the marking. -/
theorem C4_removal_guard_witness :
    (add_marking (initContainer pkg4 100) (some A4) M1 true).2 = .ok (some A4.idOf)
    ∧ (remove_marking (add_marking (initContainer pkg4 100) (some A4) M1 true).1
        (some B4) M1 false).2 = .error .markingRemovalError
    ∧ (remove_marking (add_marking (initContainer pkg4 100) (some A4) M1 true).1
        (some A4) M1 true).2 = .ok ()
    ∧ M1 ∉ get_markings
        (remove_marking (add_marking (initContainer pkg4 100) (some A4) M1 true).1
          (some A4) M1 true).1 B4 false false :=
  C4_removal_guard pkg4 A4 B4 M1 100 rfl
    (List.mem_cons_self A4 _) (List.mem_cons_self B4 _)
    rfl rfl rfl rfl (by decide) (by decide)

/-- Claim C2, counterexample.  The claim fails for a strict descendant that
is a raw builtin scalar: _add_descendants rebinds the loop variable to the
wrapper returned by api.add_marking and drops it, so the marking attached
during the eager descendant pass lands on a discarded copy.  Here the raw
title leaf is the only Navigator-reachable strict descendant of the marked
indicator, the add succeeds, and yet get_markings on the title does not
include the marking. -/
theorem C2_counterexample_raw_scalar_descendant :
    (add_marking c2_0 (some indC2) M1 true).2 = .ok (some indC2.idOf)
    ∧ (iterwalk indC2).map Node.idOf = [rawTitle.idOf]
    ∧ in_place_markable rawTitle = false
    ∧ M1 ∉ get_markings c2_1 rawTitle false false :=
  ⟨rfl, rfl, rfl, by decide⟩

/-- Claim C7, counterexample.  For a leaf whose wire mapping is an attribute
selector the flushed path does not end in the self selector: marking the
wrapped id attribute with descendants=false yields the path ../../../@id,
which does not end in self::node(); with descendants=true the path is
unchanged and carries neither the self-and-descendants axis nor the
all-attributes union clause. -/
theorem C7_counterexample_attribute_leaf :
    find_path_and_handling pkgC7 idAttr false = .ok ("../../../@id", .entH 1)
    ∧ strEndsWith "../../../@id" XPATH_AXIS_SELF_NODE = false
    ∧ find_path_and_handling pkgC7 idAttr true = .ok ("../../../@id", .entH 1)
    ∧ strContains "../../../@id" XPATH_AXIS_DESCENDANT_OR_SELF_NODE = false
    ∧ (flush cAttr).2 = none
    ∧ ((flush cAttr).1).handlingMap 1 = [⟨1, some "../../../@id"⟩] :=
  ⟨rfl, by decide, rfl, by decide, rfl, rfl⟩

/-- A character list is a prefix of itself extended by anything. -/
theorem charsHasPfx_append_self (x y : List Char) : charsHasPfx (x ++ y) x = true := by
  induction x with
  | nil => simp [charsHasPfx]
  | cons a as ih => simp [charsHasPfx, ih]

/-- A character list is a prefix of itself. -/
theorem charsHasPfx_refl (x : List Char) : charsHasPfx x x = true := by
  have h := charsHasPfx_append_self x []
  rwa [List.append_nil] at h

/-- A prefix of a character list stays a prefix after extension. -/
theorem charsHasPfx_extend (p : List Char) : ∀ (x y : List Char),
    charsHasPfx x p = true → charsHasPfx (x ++ y) p = true := by
  induction p with
  | nil => intro x y _; simp [charsHasPfx]
  | cons b bs ih =>
      intro x y h
      cases x with
      | nil => simp [charsHasPfx] at h
      | cons a as =>
          simp only [charsHasPfx, Bool.and_eq_true] at h
          simp [List.cons_append, charsHasPfx, h.1, ih as y h.2]

/-- Containment in the right part of a concatenation persists. -/
theorem charsContains_append_right (pat : List Char) : ∀ (u v : List Char),
    charsContains v pat = true → charsContains (u ++ v) pat = true := by
  intro u
  induction u with
  | nil => intro v h; simpa using h
  | cons a as ih =>
      intro v h
      simp only [List.cons_append, charsContains, Bool.or_eq_true]
      exact Or.inr (ih v h)

/-- A string ends with itself. -/
theorem strEndsWith_refl (s : String) : strEndsWith s s = true :=
  charsHasPfx_refl s.data.reverse

/-- A suffix of the right part of a concatenation is a suffix of the
whole. -/
theorem strEndsWith_append_of (a b pat : String) (h : strEndsWith b pat = true) :
    strEndsWith (a ++ b) pat = true := by
  unfold strEndsWith at h ⊢
  rw [String.data_append, List.reverse_append]
  exact charsHasPfx_extend pat.data.reverse b.data.reverse a.data.reverse h

/-- A string contains itself. -/
theorem strContains_refl (s : String) : strContains s s = true := by
  unfold strContains
  cases hd : s.data with
  | nil => rfl
  | cons a as => simp [charsContains, charsHasPfx_refl]

/-- A substring of the right part of a concatenation is a substring of the
whole. -/
theorem strContains_append_of (a b pat : String) (h : strContains b pat = true) :
    strContains (a ++ b) pat = true := by
  unfold strContains at h ⊢
  rw [String.data_append]
  exact charsContains_append_right pat.data a.data b.data h

/-- Joining a list closed by a last component produces a string that ends
with and contains that component. -/
theorem joinSep_concat_ends (sep : String) (xs : List String) (a : String) :
    strEndsWith (joinSep sep (xs ++ [a])) a = true
    ∧ strContains (joinSep sep (xs ++ [a])) a = true := by
  induction xs with
  | nil => exact ⟨strEndsWith_refl a, strContains_refl a⟩
  | cons x xs0 ih =>
      have hred : joinSep sep ((x :: xs0) ++ [a])
          = x ++ sep ++ joinSep sep (xs0 ++ [a]) := by
        cases xs0 <;> rfl
      rw [hred]
      exact ⟨strEndsWith_append_of _ _ _ ih.1, strContains_append_of _ _ _ ih.2⟩

/-- The join of a nonempty list ends with its last component. -/
theorem joinSep_last_ends (sep : String) : ∀ (xs : List String) (l : String),
    xs.getLast? = some l → strEndsWith (joinSep sep xs) l = true := by
  intro xs
  induction xs with
  | nil => intro l h; cases h
  | cons x xs0 ih =>
      intro l h
      cases xs0 with
      | nil =>
          have hx : x = l := by simpa using h
          subst hx
          exact strEndsWith_refl x
      | cons y ys =>
          have h2 : (y :: ys).getLast? = some l := by simpa using h
          exact strEndsWith_append_of _ _ _ (ih l h2)

/-- The final-axis step of the serializer on a component list whose last
entry is not an attribute or content selector appends the self axis
(descendants false) or the self-and-descendants axis (descendants true). -/
theorem append_final_axis_not_attr (xs : List String) (l : String)
    (hlast : xs.getLast? = some l)
    (h : (is_attribute l || is_content l) = false) :
    append_final_axis xs false = xs ++ [XPATH_AXIS_SELF_NODE]
    ∧ append_final_axis xs true = xs ++ [XPATH_AXIS_DESCENDANT_OR_SELF_NODE] := by
  unfold append_final_axis
  rw [hlast]
  simp [h]

/-- The final-axis step of the serializer leaves a component list whose
last entry is an attribute or content selector unchanged. -/
theorem append_final_axis_attr (xs : List String) (l : String)
    (hlast : xs.getLast? = some l)
    (h : (is_attribute l || is_content l) = true) (d : Bool) :
    append_final_axis xs d = xs := by
  unfold append_final_axis
  rw [hlast]
  simp [h]

/-- The join step never unions the all-attributes clause for
descendants=false. -/
theorem join_path_false (xs : List String) :
    join_path xs false = joinSep XPATH_SELECT_OPERATOR xs := by
  unfold join_path
  simp

/-- The join step unions the all-attributes clause when the joined path
contains the self-and-descendants axis and descendants is true. -/
theorem join_path_true_of_contains (xs : List String)
    (h : strContains (joinSep XPATH_SELECT_OPERATOR xs)
      XPATH_AXIS_DESCENDANT_OR_SELF_NODE = true) :
    join_path xs true = joinSep XPATH_SELECT_OPERATOR xs ++ " | "
      ++ joinSep XPATH_SELECT_OPERATOR xs ++ XPATH_SELECT_OPERATOR
      ++ XPATH_WILDCARD_ALL_ATTRS := by
  unfold join_path
  simp [h]

/-- The join step is the plain join when the joined path does not contain
the self-and-descendants axis. -/
theorem join_path_of_not_contains (xs : List String) (d : Bool)
    (h : strContains (joinSep XPATH_SELECT_OPERATOR xs)
      XPATH_AXIS_DESCENDANT_OR_SELF_NODE = false) :
    join_path xs d = joinSep XPATH_SELECT_OPERATOR xs := by
  unfold join_path
  simp [h]

/-- Claim C7, amended.  The selector dichotomy the code actually
implements, over any package, marked field and synthesized component list
(the relative start produced by _resolve_handling followed by the steps of
the ancestors loop): when the last synthesized component is not an
attribute or content selector, the path produced for descendants=false is
the join extended by the self axis, so it ends in self::node(), and the
path produced for descendants=true is the join extended by the
self-and-descendants axis, unioned with the all-attributes clause; when
the last component is an attribute or content selector (and the join
carries no self-and-descendants axis of its own), the path is the plain
join for either value of descendants, ending in that selector, with no
axis and no union clause appended. -/
theorem C7_amended_selector_dichotomy (pkg field : Node) (t : PathTriple)
    (anc2 : List Node) (x0 : List String) (href : HRef) (steps : List String)
    (l : String)
    (hfind : (iterpath [] pkg).find? (fun tr => tr.value.idOf == field.idOf) = some t)
    (hres : resolve_handling t.ancestors t.value = (anc2, x0, href))
    (hsynth : synth_steps anc2 t.fname t.value = .ok steps)
    (hlast : (x0 ++ steps).getLast? = some l) :
    ((is_attribute l || is_content l) = false →
      find_path_and_handling pkg field false
        = .ok (joinSep XPATH_SELECT_OPERATOR (x0 ++ steps ++ [XPATH_AXIS_SELF_NODE]), href)
      ∧ strEndsWith (joinSep XPATH_SELECT_OPERATOR (x0 ++ steps ++ [XPATH_AXIS_SELF_NODE]))
          XPATH_AXIS_SELF_NODE = true
      ∧ find_path_and_handling pkg field true
        = .ok (joinSep XPATH_SELECT_OPERATOR
                (x0 ++ steps ++ [XPATH_AXIS_DESCENDANT_OR_SELF_NODE])
              ++ " | "
              ++ joinSep XPATH_SELECT_OPERATOR
                (x0 ++ steps ++ [XPATH_AXIS_DESCENDANT_OR_SELF_NODE])
              ++ XPATH_SELECT_OPERATOR ++ XPATH_WILDCARD_ALL_ATTRS, href)
      ∧ strEndsWith (joinSep XPATH_SELECT_OPERATOR
            (x0 ++ steps ++ [XPATH_AXIS_DESCENDANT_OR_SELF_NODE]))
          XPATH_AXIS_DESCENDANT_OR_SELF_NODE = true)
    ∧ ((is_attribute l || is_content l) = true →
        strContains (joinSep XPATH_SELECT_OPERATOR (x0 ++ steps))
          XPATH_AXIS_DESCENDANT_OR_SELF_NODE = false →
      ∀ d, find_path_and_handling pkg field d
          = .ok (joinSep XPATH_SELECT_OPERATOR (x0 ++ steps), href)
        ∧ strEndsWith (joinSep XPATH_SELECT_OPERATOR (x0 ++ steps)) l = true) := by
  have hfp : ∀ d, find_path_and_handling pkg field d
      = .ok (join_path (append_final_axis (x0 ++ steps) d) d, href) := by
    intro d
    unfold find_path_and_handling
    simp only [hfind, hres, hsynth]
  constructor
  · intro h
    refine ⟨?_, (joinSep_concat_ends _ (x0 ++ steps) _).1, ?_,
      (joinSep_concat_ends _ (x0 ++ steps) _).1⟩
    · rw [hfp false, (append_final_axis_not_attr (x0 ++ steps) l hlast h).1,
        join_path_false]
    · rw [hfp true, (append_final_axis_not_attr (x0 ++ steps) l hlast h).2,
        join_path_true_of_contains _ (joinSep_concat_ends _ (x0 ++ steps) _).2]
  · intro h hnd d
    refine ⟨?_, joinSep_last_ends _ (x0 ++ steps) l hlast⟩
    rw [hfp d, append_final_axis_attr (x0 ++ steps) l hlast h d,
      join_path_of_not_contains _ d hnd]

/-- Claim C7, amended, witness: both arms of the dichotomy applied in the
three-leaf indicator package.  The element-mapped title leaf gets the self
axis (descendants=false) and the self-and-descendants axis with the
all-attributes union (descendants=true); the attribute-mapped id leaf gets
the path ending in its own @id selector for either flag, with no axis and
no union. -/
theorem C7_amended_selector_dichotomy_witness :
    (find_path_and_handling pkgC7 sTitle false =
      .ok ("../../../indicator:Title[1]/self::node()", .entH 1)
    ∧ strEndsWith "../../../indicator:Title[1]/self::node()" XPATH_AXIS_SELF_NODE = true
    ∧ find_path_and_handling pkgC7 sTitle true =
      .ok ("../../../indicator:Title[1]/descendant-or-self::node() | ../../../indicator:Title[1]/descendant-or-self::node()/@*", .entH 1)
    ∧ strEndsWith "../../../indicator:Title[1]/descendant-or-self::node()"
        XPATH_AXIS_DESCENDANT_OR_SELF_NODE = true)
    ∧ (∀ d, find_path_and_handling pkgC7 idAttr d = .ok ("../../../@id", .entH 1)
        ∧ strEndsWith "../../../@id" "@id" = true) := by
  constructor
  · exact (C7_amended_selector_dichotomy pkgC7 sTitle
      ⟨[pkgC7, indC7], "title", sTitle⟩ [indC7] ["../../.."] (.entH 1)
      ["indicator:Title[1]"] "indicator:Title[1]"
      rfl rfl rfl rfl).1 (by decide)
  · exact (C7_amended_selector_dichotomy pkgC7 idAttr
      ⟨[pkgC7, indC7], "id_", idAttr⟩ [indC7] ["../../.."] (.entH 1)
      ["@id"] "@id"
      rfl rfl rfl rfl).2 (by decide) (by decide)

/-- Claim C8, counterexample.  Marking the document root raises
UnmarkableError, but contrary to the claim the root's attached marking set
is changed by the failed call: the source attaches through the api before
testing is_package, so the marking stays in the package's own set. -/
theorem C8_counterexample_root_attach :
    (add_marking c8_0 (some pkg4) M1 false).2 = .error .unmarkableError
    ∧ M1 ∈ ((add_marking c8_0 (some pkg4) M1 false).1).attached pkg4.idOf :=
  ⟨rfl, by decide⟩

/-- The inserted marking is a member of the python set insert. -/
theorem mem_setInsert_self (m : Marking) (l : List Marking) : m ∈ setInsert m l := by
  unfold setInsert
  split
  · assumption
  · exact List.mem_append_right _ (List.mem_singleton_self m)

/-- Attaching a marking through the api keeps that same marking present at
every id where it already was: in-place adds only insert, and a fresh
wrapper id is set to the one-element set holding the marking itself. -/
theorem api_add_marking_preserves (c : Container) (n : Node) (m : Marking) (j : Nat)
    (h : m ∈ c.attached j) : m ∈ ((api_add_marking c n m).1).attached j := by
  cases n with
  | ent i p hh pk rp fs =>
      simp only [api_add_marking, updateFun]
      split
      · exact mem_setInsert_self m _
      · exact h
  | scalar i v w =>
      cases w with
      | false =>
          simp only [api_add_marking, updateFun]
          split
          · exact List.mem_singleton_self m
          · exact h
      | true =>
          simp only [api_add_marking, updateFun]
          split
          · exact mem_setInsert_self m _
          · exact h

/-- After an in-place api add, the marking is attached at the target id. -/
theorem api_add_marking_self (c : Container) (n : Node) (m : Marking)
    (hip : in_place_markable n = true) :
    m ∈ ((api_add_marking c n m).1).attached n.idOf := by
  cases n with
  | ent i p hh pk rp fs =>
      simp only [api_add_marking, updateFun, Node.idOf, if_pos]
      exact mem_setInsert_self m _
  | scalar i v w =>
      cases w with
      | false => simp [in_place_markable] at hip
      | true =>
          simp only [api_add_marking, updateFun, Node.idOf, if_pos]
          exact mem_setInsert_self m _

/-- A fold of api adds of one marking preserves its presence at any id. -/
theorem foldl_api_add_preserves (m : Marking) (L : List Node) (c : Container) (j : Nat)
    (h : m ∈ c.attached j) :
    m ∈ (L.foldl (fun acc d => (api_add_marking acc d m).1) c).attached j := by
  induction L generalizing c with
  | nil => exact h
  | cons a L ih =>
      rw [List.foldl_cons]
      exact ih _ (api_add_marking_preserves c a m j h)

/-- A fold of api adds of one marking over a node list marks every in-place
markable node of the list. -/
theorem foldl_api_add_mem (m : Marking) (L : List Node) (c : Container) (B : Node)
    (hB : B ∈ L) (hip : in_place_markable B = true) :
    m ∈ (L.foldl (fun acc d => (api_add_marking acc d m).1) c).attached B.idOf := by
  induction L generalizing c with
  | nil => cases hB
  | cons a L ih =>
      rw [List.foldl_cons]
      rcases List.mem_cons.mp hB with h | h
      · subst h
        exact foldl_api_add_preserves m L _ _ (api_add_marking_self c B m hip)
      · exact ih _ h

/-- After _add_descendants, every in-place markable node of the walked
descendant list carries the marking. -/
theorem add_descendants_mem (c : Container) (n : Node) (m : Marking) (B : Node)
    (hB : B ∈ iterwalk n) (hip : in_place_markable B = true) :
    m ∈ (add_descendants c n m).attached B.idOf := by
  unfold add_descendants
  exact foldl_api_add_mem m (iterwalk n) c B hB hip

/-- A marking attached at a node is reported by get_markings for any flag
combination. -/
theorem mem_get_markings_of_attached (c : Container) (n : Node) (m : Marking)
    (d inl : Bool) (h : m ∈ c.attached n.idOf) : m ∈ get_markings c n d inl := by
  unfold get_markings api_get_markings
  exact List.mem_append.mpr
    (Or.inl (List.mem_append.mpr (Or.inl (List.mem_append.mpr (Or.inr h)))))

/-- Claim C2 (inheritance union), amended.  The eager descendant pass of
add_marking(A, M, descendants=true) attaches M in place to every
Navigator-reachable strict descendant that is an entity or an already
wrapped scalar, so get_markings on such a descendant includes M whenever the
add succeeded; raw builtin scalar descendants are excluded, since for them
the pass attaches M to a discarded wrapper copy (the counterexample
theorem). -/
theorem C2_inheritance_union_amended (c : Container) (A : Node) (m : Marking)
    (r : Option Nat) (h : (add_marking c (some A) m true).2 = .ok r) (B : Node)
    (hB : B ∈ iterwalk A) (hip : in_place_markable B = true) :
    m ∈ get_markings (add_marking c (some A) m true).1 B false false := by
  unfold add_marking at h ⊢
  by_cases h1 : m.controlled_structure ≠ none
  · simp [h1] at h
  · simp only [if_neg h1] at h ⊢
    by_cases h2 : m ∈ get_markings c A false false
    · simp [h2] at h
    · simp only [if_neg h2] at h ⊢
      by_cases h3 : A.isPkgB = true
      · simp [h3] at h
      · have h3f : A.isPkgB = false := by
          revert h3; cases A.isPkgB <;> simp
        simp only [h3f, Bool.not_false, if_true] at h ⊢
        by_cases h4 :
            (m, true) ∈ (lookupField (api_add_marking c A m).1.field_markings
              (api_add_marking c A m).2.idOf).getD []
        · simp [h4] at h
        · simp only [if_neg h4] at h ⊢
          exact mem_get_markings_of_attached _ B m false false
            (add_descendants_mem (api_add_marking c A m).1 A m B hB hip)

/-- Claim C2, witness: in the incident scenario the nested indicator B4 is a
Navigator-reachable strict descendant of the incident A4 and is an entity,
so after the successful component marking it carries M1. -/
theorem C2_inheritance_union_amended_witness :
    M1 ∈ get_markings (add_marking c4_0 (some A4) M1 true).1 B4 false false :=
  C2_inheritance_union_amended c4_0 A4 M1 (some 1) rfl B4
    (by have h : iterwalk A4 = [B4] := rfl
        exact h ▸ List.mem_singleton_self B4)
    rfl

/-- Claim C3 (duplicate rejection against the effective marking set).  The
general part: whenever the marking is already in the effective set that
get_markings reports for the node (own attached markings, eagerly inherited
ones and buffered globals alike), add_marking raises DuplicateMarkingError
and leaves the container unchanged.  The concrete parts instantiate the
three scopes of the claim: after add_global, after a descendants=true
marking of an ancestor (the nested indicator B4), and after a direct
marking of the same node; adding the same payload to the other, unrelated
sibling succeeds. -/
theorem C3_duplicate_rejection :
    (∀ (c : Container) (n : Node) (m : Marking) (d : Bool),
        m.controlled_structure = none →
        m ∈ get_markings c n false false →
        add_marking c (some n) m d = (c, .error .duplicateMarkingError))
    ∧ (add_marking cg1 (some X3) M1 false).2 = .error .duplicateMarkingError
    ∧ (add_marking c4_1 (some B4) M1 false).2 = .error .duplicateMarkingError
    ∧ (add_marking cs1 (some X3) M1 false).2 = .error .duplicateMarkingError
    ∧ (add_marking cs1 (some Y3) M1 false).2 = .ok (some Y3.idOf) := by
  refine ⟨?_, rfl, rfl, rfl, rfl⟩
  intro c n m d h1 h2
  simp [add_marking, h1, h2]

/-- Claim C3, witness: the general rejection applied at the sibling scenario
where M1 was already added to the first sibling directly. -/
theorem C3_duplicate_rejection_witness :
    add_marking cs1 (some X3) M1 false = (cs1, .error .duplicateMarkingError) :=
  C3_duplicate_rejection.1 cs1 X3 M1 false rfl (by decide)

/-- Claim C8 (root rejection), amended.  Marking the document root raises
UnmarkableError directing the caller to add_global, and none of the three
store collections is changed; but the rejection happens after the attach
step, not before it: the returned state is exactly the input state with the
marking inserted into the root's own attached set. -/
theorem C8_amended_root_rejected_after_attach (c : Container) (root : Node)
    (m : Marking) (d : Bool) (hroot : root.isPkgB = true)
    (hcs : m.controlled_structure = none)
    (hdup : m ∉ get_markings c root false false) :
    add_marking c (some root) m d =
      ({ c with attached := updateFun c.attached root.idOf (setInsert m (c.attached root.idOf)) }
      , .error .unmarkableError) := by
  cases root with
  | scalar i v w => simp [Node.isPkgB] at hroot
  | ent i p hh pk rp fs =>
      have hpk : pk = true := by simpa [Node.isPkgB] using hroot
      subst hpk
      simp [add_marking, hcs, hdup, api_add_marking, Node.isPkgB, Node.idOf]

/-- Claim C8, witness: the amended statement applied to the concrete package
scenario. -/
theorem C8_amended_root_rejected_after_attach_witness :
    add_marking c8_0 (some pkg4) M1 false =
      ({ c8_0 with attached := updateFun c8_0.attached pkg4.idOf (setInsert M1 (c8_0.attached pkg4.idOf)) }
      , .error .unmarkableError) :=
  C8_amended_root_rejected_after_attach c8_0 pkg4 M1 false rfl rfl (by decide)

/-- Updating one MarkingMap key leaves the entries of every other key
untouched. -/
theorem mm_find_mm_set_ne (mm : MarkingMap) (k k2 : MapKey) (v : List Nat)
    (h : k ≠ k2) : mm_find (mm_set mm k v) k2 = mm_find mm k2 := by
  induction mm with
  | nil => simp [mm_set, mm_find, h]
  | cons p mm ih =>
      obtain ⟨k0, v0⟩ := p
      by_cases hk : k0 = k
      · subst hk
        simp [mm_set, mm_find, h]
      · by_cases hk2 : k0 = k2
        · subst hk2
          simp [mm_set, mm_find, hk]
        · simp [mm_set, mm_find, hk, hk2, ih]

/-- Claim C9 (identity-aware ingest keying).  Two attribute or text
occurrences with equal string values make distinct MarkingMap keys whenever
their parents or names differ, and adding a marking under one of them leaves
the index entry of the other untouched, so same-valued occurrences never
collapse onto a single entry. -/
theorem C9_identity_aware_keying (a b : XmlAttrOcc) (hval : a.sval = b.sval)
    (hdiff : a.parentId ≠ b.parentId ∨ a.aname ≠ b.aname) :
    make_key (.attrOcc a) ≠ make_key (.attrOcc b)
    ∧ ∀ (mm : MarkingMap) (v : Nat),
        mm_find (mm_add mm (.attrOcc a) v) (make_key (.attrOcc b)) =
          mm_find mm (make_key (.attrOcc b)) := by
  have hne : make_key (.attrOcc a) ≠ make_key (.attrOcc b) := by
    intro h
    simp only [make_key, MapKey.attrKey.injEq] at h
    subst h
    rcases hdiff with h | h <;> exact h rfl
  refine ⟨hne, ?_⟩
  intro mm v
  cases h2 : mm_find mm (make_key (XmlNode.attrOcc a)) with
  | none =>
      simp only [mm_add, h2]
      exact mm_find_mm_set_ne mm _ _ _ hne
  | some s =>
      simp only [mm_add, h2]
      exact mm_find_mm_set_ne mm _ _ _ hne

/-- Claim C9, witness: two id attributes with the same value 10.0.0.1 under
different parent elements stay distinct; populating the index for the first
leaves the second unindexed. -/
theorem C9_identity_aware_keying_witness :
    make_key (.attrOcc ⟨"id", 1, "10.0.0.1"⟩) ≠ make_key (.attrOcc ⟨"id", 2, "10.0.0.1"⟩)
    ∧ mm_find (mm_add [] (.attrOcc ⟨"id", 1, "10.0.0.1"⟩) 7)
        (make_key (.attrOcc ⟨"id", 2, "10.0.0.1"⟩)) =
      mm_find ([] : MarkingMap) (make_key (.attrOcc ⟨"id", 2, "10.0.0.1"⟩)) :=
  ⟨(C9_identity_aware_keying ⟨"id", 1, "10.0.0.1"⟩ ⟨"id", 2, "10.0.0.1"⟩ rfl
      (Or.inl (by decide))).1
  , (C9_identity_aware_keying ⟨"id", 1, "10.0.0.1"⟩ ⟨"id", 2, "10.0.0.1"⟩ rfl
      (Or.inl (by decide))).2 [] 7⟩

/-- Adding a record to a handling container changes neither the wrapped
package nor the three buffered collections. -/
theorem add_to_handling_frame (c : Container) (h : HRef) (m : Marking) :
    (add_to_handling c h m).package = c.package
    ∧ (add_to_handling c h m).field_markings = c.field_markings
    ∧ (add_to_handling c h m).global_markings = c.global_markings
    ∧ (add_to_handling c h m).null_markings = c.null_markings := by
  cases h <;> exact ⟨rfl, rfl, rfl, rfl⟩

/-- Records present in a handling container stay present when another record
is added to any handling container. -/
theorem mem_handling_at_add (c : Container) (hr hr2 : HRef) (m m2 : Marking)
    (h : m ∈ handling_at c hr) : m ∈ handling_at (add_to_handling c hr2 m2) hr := by
  cases hr with
  | header =>
      cases hr2 with
      | header => exact List.mem_append_left _ h
      | entH j => exact h
  | entH i =>
      cases hr2 with
      | header => exact h
      | entH j =>
          simp only [handling_at, add_to_handling]
          split
          · exact List.mem_append_left _ h
          · exact h

/-- Frame of the global-markings pass: the fold writing global copies into
the header touches neither the package nor the buffers. -/
theorem foldl_header_frame (g : Marking → Marking) (L : List Marking) (c : Container) :
    ((L.foldl (fun acc m => add_to_handling acc .header (g m)) c)).package = c.package
    ∧ ((L.foldl (fun acc m => add_to_handling acc .header (g m)) c)).field_markings = c.field_markings
    ∧ ((L.foldl (fun acc m => add_to_handling acc .header (g m)) c)).global_markings = c.global_markings
    ∧ ((L.foldl (fun acc m => add_to_handling acc .header (g m)) c)).null_markings = c.null_markings := by
  induction L generalizing c with
  | nil => exact ⟨rfl, rfl, rfl, rfl⟩
  | cons a L ih =>
      rw [List.foldl_cons]
      obtain ⟨q1, q2, q3, q4⟩ := ih (add_to_handling c .header (g a))
      obtain ⟨r1, r2, r3, r4⟩ := add_to_handling_frame c .header (g a)
      exact ⟨q1.trans r1, q2.trans r2, q3.trans r3, q4.trans r4⟩

/-- Members of any handling container survive a header fold. -/
theorem foldl_header_mono (g : Marking → Marking) (L : List Marking) (c : Container)
    (m : Marking) (hr : HRef) (h : m ∈ handling_at c hr) :
    m ∈ handling_at (L.foldl (fun acc m => add_to_handling acc .header (g m)) c) hr := by
  induction L generalizing c with
  | nil => exact h
  | cons a L ih =>
      rw [List.foldl_cons]
      exact ih _ (mem_handling_at_add c hr .header m _ h)

/-- Every buffered marking of the folded list is embedded, transformed, into
the header handling. -/
theorem foldl_header_embeds (g : Marking → Marking) (L : List Marking) (c : Container)
    (m : Marking) (h : m ∈ L) :
    g m ∈ (L.foldl (fun acc m => add_to_handling acc .header (g m)) c).headerHandling := by
  induction L generalizing c with
  | nil => cases h
  | cons a L ih =>
      rw [List.foldl_cons]
      rcases List.mem_cons.mp h with h1 | h1
      · subst h1
        have hstart : g m ∈ handling_at (add_to_handling c .header (g m)) .header :=
          List.mem_append_right _ (List.mem_singleton_self _)
        exact foldl_header_mono g L _ (g m) .header hstart
      · exact ih _ h1

/-- Frame of the global pass, stated on the source function. -/
theorem apply_global_markings_frame (c : Container) :
    (apply_global_markings c).package = c.package
    ∧ (apply_global_markings c).field_markings = c.field_markings
    ∧ (apply_global_markings c).global_markings = c.global_markings
    ∧ (apply_global_markings c).null_markings = c.null_markings :=
  foldl_header_frame (fun m => { m with controlled_structure := some XPATH_GLOBAL_ALL_FIELDS })
    c.global_markings c

/-- Every buffered global marking is embedded as a copy with the global
controlled structure. -/
theorem apply_global_markings_embeds (c : Container) (m : Marking)
    (h : m ∈ c.global_markings) :
    { m with controlled_structure := some XPATH_GLOBAL_ALL_FIELDS } ∈
      (apply_global_markings c).headerHandling :=
  foldl_header_embeds (fun m => { m with controlled_structure := some XPATH_GLOBAL_ALL_FIELDS })
    c.global_markings c m h

/-- Every buffered null marking is embedded unchanged by the null pass. -/
theorem apply_null_markings_embeds (c : Container) (m : Marking)
    (h : m ∈ c.null_markings) :
    m ∈ (apply_null_markings c).headerHandling :=
  foldl_header_embeds (fun m => m) c.null_markings c m h

/-- Members of any handling container survive the null pass. -/
theorem apply_null_markings_mono (c : Container) (m : Marking) (hr : HRef)
    (h : m ∈ handling_at c hr) : m ∈ handling_at (apply_null_markings c) hr :=
  foldl_header_mono (fun m => m) c.null_markings c m hr h

/-- Frame of one field entry pass: package and buffers unchanged. -/
theorem apply_markings_to_field_frame (f : Node) (L : List (Marking × Bool)) (c : Container) :
    ((apply_markings_to_field c f L).1).package = c.package
    ∧ ((apply_markings_to_field c f L).1).field_markings = c.field_markings
    ∧ ((apply_markings_to_field c f L).1).global_markings = c.global_markings
    ∧ ((apply_markings_to_field c f L).1).null_markings = c.null_markings := by
  induction L generalizing c with
  | nil => exact ⟨rfl, rfl, rfl, rfl⟩
  | cons md L ih =>
      obtain ⟨m, d⟩ := md
      unfold apply_markings_to_field
      cases hfp : find_path_and_handling c.package f d with
      | error e => exact ⟨rfl, rfl, rfl, rfl⟩
      | ok ph =>
          obtain ⟨p, href⟩ := ph
          obtain ⟨q1, q2, q3, q4⟩ :=
            ih (add_to_handling c href { m with controlled_structure := some p })
          obtain ⟨r1, r2, r3, r4⟩ :=
            add_to_handling_frame c href { m with controlled_structure := some p }
          exact ⟨q1.trans r1, q2.trans r2, q3.trans r3, q4.trans r4⟩

/-- Members of any handling container survive one field entry pass. -/
theorem apply_markings_to_field_mono (f : Node) (L : List (Marking × Bool)) (c : Container)
    (m : Marking) (hr : HRef) (h : m ∈ handling_at c hr) :
    m ∈ handling_at ((apply_markings_to_field c f L).1) hr := by
  induction L generalizing c with
  | nil => exact h
  | cons md L ih =>
      obtain ⟨m2, d⟩ := md
      unfold apply_markings_to_field
      cases hfp : find_path_and_handling c.package f d with
      | error e => exact h
      | ok ph =>
          obtain ⟨p, href⟩ := ph
          exact ih _ (mem_handling_at_add c hr href m _ h)

/-- Frame of the field pass over all entries. -/
theorem apply_field_markings_frame (entries : List (Node × List (Marking × Bool)))
    (c : Container) :
    ((apply_field_markings c entries).1).package = c.package
    ∧ ((apply_field_markings c entries).1).field_markings = c.field_markings
    ∧ ((apply_field_markings c entries).1).global_markings = c.global_markings
    ∧ ((apply_field_markings c entries).1).null_markings = c.null_markings := by
  induction entries generalizing c with
  | nil => exact ⟨rfl, rfl, rfl, rfl⟩
  | cons fl entries ih =>
      obtain ⟨f, lst⟩ := fl
      unfold apply_field_markings
      cases hatf : apply_markings_to_field c f lst with
      | mk c1 oe =>
          obtain ⟨r1, r2, r3, r4⟩ := apply_markings_to_field_frame f lst c
          rw [hatf] at r1 r2 r3 r4
          cases oe with
          | some e => exact ⟨r1, r2, r3, r4⟩
          | none =>
              obtain ⟨q1, q2, q3, q4⟩ := ih c1
              exact ⟨q1.trans r1, q2.trans r2, q3.trans r3, q4.trans r4⟩

/-- Members of any handling container survive the field pass. -/
theorem apply_field_markings_mono (entries : List (Node × List (Marking × Bool)))
    (c : Container) (m : Marking) (hr : HRef) (h : m ∈ handling_at c hr) :
    m ∈ handling_at ((apply_field_markings c entries).1) hr := by
  induction entries generalizing c with
  | nil => exact h
  | cons fl entries ih =>
      obtain ⟨f, lst⟩ := fl
      unfold apply_field_markings
      cases hatf : apply_markings_to_field c f lst with
      | mk c1 oe =>
          have hmem : m ∈ handling_at c1 hr := by
            have := apply_markings_to_field_mono f lst c m hr h
            rw [hatf] at this
            exact this
          cases oe with
          | some e => exact hmem
          | none => exact ih c1 hmem

/-- A successful field entry pass resolves a path for every recorded pair of
the entry and embeds the resolved copy into the handling container the path
resolution selected. -/
theorem apply_markings_to_field_embeds (f : Node) (L : List (Marking × Bool))
    (c c2 : Container) (h : apply_markings_to_field c f L = (c2, none)) :
    ∀ md ∈ L, ∃ p href, find_path_and_handling c.package f md.2 = .ok (p, href)
      ∧ { md.1 with controlled_structure := some p } ∈ handling_at c2 href := by
  induction L generalizing c with
  | nil => intro md hmd; cases hmd
  | cons md0 L ih =>
      obtain ⟨m, d⟩ := md0
      intro md hmd
      unfold apply_markings_to_field at h
      cases hfp : find_path_and_handling c.package f d with
      | error e =>
          rw [hfp] at h
          simp at h
      | ok ph =>
          obtain ⟨p, href⟩ := ph
          rw [hfp] at h
          replace h : apply_markings_to_field
              (add_to_handling c href { m with controlled_structure := some p }) f L = (c2, none) := h
          rcases List.mem_cons.mp hmd with h1 | h1
          · subst h1
            refine ⟨p, href, hfp, ?_⟩
            have hstart :
                { m with controlled_structure := some p } ∈
                  handling_at (add_to_handling c href { m with controlled_structure := some p }) href := by
              cases href with
              | header => exact List.mem_append_right _ (List.mem_singleton_self _)
              | entH i =>
                  simp only [handling_at, add_to_handling, if_pos]
                  exact List.mem_append_right _ (List.mem_singleton_self _)
            have hres := apply_markings_to_field_mono f L
              (add_to_handling c href { m with controlled_structure := some p })
              { m with controlled_structure := some p } href hstart
            rw [h] at hres
            exact hres
          · have hpkg : (add_to_handling c href { m with controlled_structure := some p }).package = c.package :=
              (add_to_handling_frame c href _).1
            have hres := ih (add_to_handling c href { m with controlled_structure := some p }) h md h1
            rw [hpkg] at hres
            exact hres

/-- A successful field pass resolves and embeds every recorded pair of every
entry. -/
theorem apply_field_markings_embeds (entries : List (Node × List (Marking × Bool)))
    (c c2 : Container) (h : apply_field_markings c entries = (c2, none)) :
    ∀ fl ∈ entries, ∀ md ∈ fl.2, ∃ p href,
      find_path_and_handling c.package fl.1 md.2 = .ok (p, href)
      ∧ { md.1 with controlled_structure := some p } ∈ handling_at c2 href := by
  induction entries generalizing c with
  | nil => intro fl hfl; cases hfl
  | cons fl0 entries ih =>
      obtain ⟨f, lst⟩ := fl0
      intro fl hfl md hmd
      unfold apply_field_markings at h
      cases hatf : apply_markings_to_field c f lst with
      | mk c1 oe =>
          rw [hatf] at h
          cases oe with
          | some e => simp at h
          | none =>
              replace h : apply_field_markings c1 entries = (c2, none) := h
              rcases List.mem_cons.mp hfl with h1 | h1
              · subst h1
                obtain ⟨p, href, hfp, hmem⟩ :=
                  apply_markings_to_field_embeds f lst c c1 hatf md hmd
                refine ⟨p, href, hfp, ?_⟩
                have hres := apply_field_markings_mono entries c1 _ href hmem
                rw [h] at hres
                exact hres
              · have hpkg : c1.package = c.package := by
                  have hfr := (apply_markings_to_field_frame f lst c).1
                  rw [hatf] at hfr
                  exact hfr
                have hres := ih c1 h fl h1 md hmd
                rw [hpkg] at hres
                exact hres

/-- Dissection of a successful flush: when the field pass succeeds, flush
returns the container after the three passes with its buffers reset. -/
theorem flush_success_eq (c c2 : Container)
    (happ : apply_field_markings (apply_global_markings c)
      (apply_global_markings c).field_markings = (c2, none)) :
    flush c = ({ apply_null_markings c2 with
      field_markings := [], global_markings := [], null_markings := [] }, none) := by
  unfold flush
  simp only [happ]

/-- Dissection of a failing flush: the error of the field pass propagates
with the partial container, and the reset is never reached. -/
theorem flush_failure_eq (c c2 : Container) (e : Err)
    (happ : apply_field_markings (apply_global_markings c)
      (apply_global_markings c).field_markings = (c2, some e)) :
    flush c = (c2, some e) := by
  unfold flush
  simp only [happ]

/-- A container with empty buffers flushes to itself: nothing is embedded
and the reset is the identity. -/
theorem flush_of_empty (c : Container) (h1 : c.field_markings = [])
    (h2 : c.global_markings = []) (h3 : c.null_markings = []) :
    flush c = (c, none) := by
  obtain ⟨pkg, att, nx, fm, gm, nm, hm, hh⟩ := c
  simp only at h1 h2 h3
  subst h1
  subst h2
  subst h3
  rfl

/-- Claim C6 (flush failure does not silently empty the buffers).  When
flush raises, the reset step is never reached and the three buffered scopes
of the store are exactly what they were before the call; in particular no
record, embedded or not, has been cleared from a buffer. -/
theorem C6_flush_failure_keeps_buffers (c : Container) (e : Err)
    (h : (flush c).2 = some e) :
    ((flush c).1).field_markings = c.field_markings
    ∧ ((flush c).1).global_markings = c.global_markings
    ∧ ((flush c).1).null_markings = c.null_markings := by
  cases happ : apply_field_markings (apply_global_markings c)
      (apply_global_markings c).field_markings with
  | mk c2 oe =>
      obtain ⟨r1, r2, r3, r4⟩ :=
        apply_field_markings_frame (apply_global_markings c).field_markings
          (apply_global_markings c)
      rw [happ] at r1 r2 r3 r4
      obtain ⟨g1, g2, g3, g4⟩ := apply_global_markings_frame c
      cases oe with
      | none =>
          rw [flush_success_eq c c2 happ] at h
          simp at h
      | some e2 =>
          rw [flush_failure_eq c c2 e2 happ]
          exact ⟨r2.trans g2, r3.trans g3, r4.trans g4⟩

/-- Claim C6, witness: marking a raw scalar without storing the returned
wrapper back leaves the store referencing an object absent from the tree, so
flush fails with SerializerFieldNotFoundError; the buffers, global and field
alike, are untouched even though the global record was already embedded. -/
theorem C6_flush_failure_keeps_buffers_witness :
    ((flush c6_2).1).field_markings = c6_2.field_markings
    ∧ ((flush c6_2).1).global_markings = c6_2.global_markings
    ∧ ((flush c6_2).1).null_markings = c6_2.null_markings :=
  C6_flush_failure_keeps_buffers c6_2 .serializerFieldNotFoundError rfl

/-- Claim C5 (flush writes copies and resets the buffers).  On a successful
flush: the three buffered collections of the result are empty; flushing the
result again is the identity, so no further records are added; every
buffered global marking is embedded into the header handling as a copy
carrying the global controlled structure; every buffered null marking is
embedded into the header handling (its controlled structure untouched); and
every recorded field pair is embedded, as a copy carrying its resolved
path, into the handling container selected for it.  The buffered records
themselves are values with an empty controlled structure throughout (the
copies, not they, receive targets). -/
theorem C5_flush_copies_and_resets (c : Container) (h : (flush c).2 = none) :
    ((flush c).1).field_markings = []
    ∧ ((flush c).1).global_markings = []
    ∧ ((flush c).1).null_markings = []
    ∧ flush ((flush c).1) = ((flush c).1, none)
    ∧ (∀ m ∈ c.global_markings,
        { m with controlled_structure := some XPATH_GLOBAL_ALL_FIELDS } ∈
          ((flush c).1).headerHandling)
    ∧ (∀ m ∈ c.null_markings, m ∈ ((flush c).1).headerHandling)
    ∧ (∀ fl ∈ c.field_markings, ∀ md ∈ fl.2, ∃ p href,
        find_path_and_handling c.package fl.1 md.2 = .ok (p, href)
        ∧ { md.1 with controlled_structure := some p } ∈ handling_at ((flush c).1) href) := by
  have hgfr := apply_global_markings_frame c
  cases happ : apply_field_markings (apply_global_markings c)
      (apply_global_markings c).field_markings with
  | mk c2 oe =>
      cases oe with
      | some e =>
          rw [flush_failure_eq c c2 e happ] at h
          simp at h
      | none =>
          rw [flush_success_eq c c2 happ]
          refine ⟨rfl, rfl, rfl, flush_of_empty _ rfl rfl rfl, ?_, ?_, ?_⟩
          · intro m hm
            have hg : { m with controlled_structure := some XPATH_GLOBAL_ALL_FIELDS } ∈
                handling_at (apply_global_markings c) .header :=
              apply_global_markings_embeds c m hm
            have h2 : { m with controlled_structure := some XPATH_GLOBAL_ALL_FIELDS } ∈
                handling_at c2 .header := by
              have hmono := apply_field_markings_mono (apply_global_markings c).field_markings
                (apply_global_markings c) _ .header hg
              rw [happ] at hmono
              exact hmono
            exact apply_null_markings_mono c2 _ .header h2
          · intro m hm
            have hm2 : m ∈ c2.null_markings := by
              have hnull : c2.null_markings = c.null_markings := by
                have hfr := (apply_field_markings_frame (apply_global_markings c).field_markings
                  (apply_global_markings c)).2.2.2
                rw [happ] at hfr
                exact hfr.trans hgfr.2.2.2
              rw [hnull]
              exact hm
            exact apply_null_markings_embeds c2 m hm2
          · intro fl hfl md hmd
            have hfl2 : fl ∈ (apply_global_markings c).field_markings := by
              rw [hgfr.2.1]
              exact hfl
            obtain ⟨p, href, hfp, hmem⟩ := apply_field_markings_embeds
              (apply_global_markings c).field_markings (apply_global_markings c) c2 happ fl hfl2 md hmd
            rw [hgfr.1] at hfp
            refine ⟨p, href, hfp, ?_⟩
            exact apply_null_markings_mono c2 _ href hmem

/-- Claim C5, witness: the container holding one global, one field and one
null marking flushes successfully; applying the theorem yields the emptied
buffers and the embedded copies. -/
theorem C5_flush_copies_and_resets_witness :
    ((flush c5c).1).field_markings = []
    ∧ ((flush c5c).1).global_markings = []
    ∧ ((flush c5c).1).null_markings = []
    ∧ flush ((flush c5c).1) = ((flush c5c).1, none)
    ∧ { M2 with controlled_structure := some XPATH_GLOBAL_ALL_FIELDS } ∈
        ((flush c5c).1).headerHandling
    ∧ M3 ∈ ((flush c5c).1).headerHandling :=
  ⟨(C5_flush_copies_and_resets c5c rfl).1
  , (C5_flush_copies_and_resets c5c rfl).2.1
  , (C5_flush_copies_and_resets c5c rfl).2.2.1
  , (C5_flush_copies_and_resets c5c rfl).2.2.2.1
  , (C5_flush_copies_and_resets c5c rfl).2.2.2.2.1 M2 (by decide)
  , (C5_flush_copies_and_resets c5c rfl).2.2.2.2.2.1 M3 (by decide)⟩

/-- The descendant clearing fold does not touch the buffered collections. -/
theorem clear_fold_buffers (L : List Node) (c : Container) :
    (L.foldl (fun acc d => { acc with attached := updateFun acc.attached d.idOf [] }) c).field_markings = c.field_markings
    ∧ (L.foldl (fun acc d => { acc with attached := updateFun acc.attached d.idOf [] }) c).global_markings = c.global_markings
    ∧ (L.foldl (fun acc d => { acc with attached := updateFun acc.attached d.idOf [] }) c).null_markings = c.null_markings := by
  induction L generalizing c with
  | nil => exact ⟨rfl, rfl, rfl⟩
  | cons a L ih =>
      rw [List.foldl_cons]
      exact ih _

/-- Attached sets of ids outside the cleared walk are untouched by the
descendant clearing fold. -/
theorem clear_fold_frame (L : List Node) (c : Container) (j : Nat)
    (hj : j ∉ L.map Node.idOf) :
    (L.foldl (fun acc d => { acc with attached := updateFun acc.attached d.idOf [] }) c).attached j
      = c.attached j := by
  induction L generalizing c with
  | nil => rfl
  | cons a L ih =>
      rw [List.foldl_cons]
      have hja : j ≠ a.idOf := by
        intro he
        exact hj (by rw [List.map_cons, he]; exact List.mem_cons_self _ _)
      have hrest : j ∉ L.map Node.idOf := by
        intro hmem
        exact hj (by rw [List.map_cons]; exact List.mem_cons_of_mem _ hmem)
      rw [ih _ hrest]
      simp only [updateFun, if_neg hja]

/-- Attached sets of walked ids come out empty from the descendant clearing
fold. -/
theorem clear_fold_mem (L : List Node) (c : Container) (j : Nat)
    (hj : (L.foldl (fun acc d => { acc with attached := updateFun acc.attached d.idOf [] }) c).attached j ≠ []) :
    (L.foldl (fun acc d => { acc with attached := updateFun acc.attached d.idOf [] }) c).attached j
      = c.attached j := by
  induction L generalizing c with
  | nil => rfl
  | cons a L ih =>
      rw [List.foldl_cons] at hj ⊢
      have step := ih { c with attached := updateFun c.attached a.idOf [] } hj
      rw [step] at hj ⊢
      by_cases hja : j = a.idOf
      · subst hja
        simp only [updateFun, if_pos rfl] at hj
        cases hj rfl
      · simp only [updateFun, if_neg hja]

/-- Claim C10 (clear_markings frame).  Clearing a node's markings empties
only the marking sets attached in place (the node's own set, and, through
the descendant fold, those of walked descendants): the buffered
field/global/null collections are untouched, and attached sets of ids
outside the node and its walk are unchanged.  Concretely, the field marking
recorded for the three-leaf indicator survives clear_markings and is still
resolved and embedded by the following flush. -/
theorem C10_clear_markings_frame :
    (∀ (c : Container) (n : Node) (d : Bool),
        (clear_markings c n d).field_markings = c.field_markings
        ∧ (clear_markings c n d).global_markings = c.global_markings
        ∧ (clear_markings c n d).null_markings = c.null_markings
        ∧ (clear_markings c n d).attached n.idOf = []
        ∧ (∀ j, j ≠ n.idOf → j ∉ (iterwalk n).map Node.idOf →
            (clear_markings c n d).attached j = c.attached j))
    ∧ lookupField c7_2.field_markings indC7.idOf = some [(M1, false)]
    ∧ c7_2.attached indC7.idOf = []
    ∧ (flush c7_2).2 = none
    ∧ ((flush c7_2).1).handlingMap indC7.idOf = [⟨1, some "../../../self::node()"⟩] := by
  refine ⟨?_, rfl, rfl, rfl, rfl⟩
  intro c n d
  cases d with
  | false => exact ⟨rfl, rfl, rfl, by simp [clear_markings, updateFun],
      fun j hj _ => by simp [clear_markings, updateFun, hj]⟩
  | true =>
      refine ⟨?_, ?_, ?_, ?_, ?_⟩
      · show (clear_descendants _ n).field_markings = c.field_markings
        unfold clear_descendants
        exact (clear_fold_buffers (iterwalk n) _).1
      · show (clear_descendants _ n).global_markings = c.global_markings
        unfold clear_descendants
        exact (clear_fold_buffers (iterwalk n) _).2.1
      · show (clear_descendants _ n).null_markings = c.null_markings
        unfold clear_descendants
        exact (clear_fold_buffers (iterwalk n) _).2.2
      · show (clear_descendants _ n).attached n.idOf = []
        unfold clear_descendants
        by_cases hempty : ((iterwalk n).foldl
            (fun (acc : Container) (d : Node) => { acc with attached := updateFun acc.attached d.idOf [] })
            { c with attached := updateFun c.attached n.idOf [] }).attached n.idOf = []
        · exact hempty
        · have hsame := clear_fold_mem (iterwalk n)
            { c with attached := updateFun c.attached n.idOf [] } n.idOf hempty
          rw [hsame]
          simp [updateFun]
      · intro j hj hjw
        show (clear_descendants _ n).attached j = c.attached j
        unfold clear_descendants
        rw [clear_fold_frame (iterwalk n) _ j hjw]
        simp [updateFun, hj]

/-- Claim C10, witness: the frame applied to the marked indicator, plus one
instantiation of the outside-the-walk frame at the unrelated id 50. -/
theorem C10_clear_markings_frame_witness :
    (clear_markings c7_1 indC7 false).field_markings = c7_1.field_markings
    ∧ (clear_markings c7_1 indC7 false).attached indC7.idOf = []
    ∧ (clear_markings c7_1 indC7 false).attached 50 = c7_1.attached 50 :=
  ⟨(C10_clear_markings_frame.1 c7_1 indC7 false).1
  , (C10_clear_markings_frame.1 c7_1 indC7 false).2.2.2.1
  , (C10_clear_markings_frame.1 c7_1 indC7 false).2.2.2.2 50 (by decide) (by decide)⟩

end StixMarx
